import Mathlib

/-!
# radio-home / audio-tx

A shallow embedding of `src/audio-tx/main.c` (ATmega8A firmware: a timer
interrupt samples the ADC into two alternating 32-byte buffers, the main loop
sends every completed buffer to an nRF24L01 transceiver over SPI).

Conventions of the embedding.

* `uint8_t` and `int` values are natural numbers and integers; a reduction
  `% 256` is written wherever the C code does arithmetic on a `uint8_t`
  (`ovfCounter++`, `bufferCounter++`, `W_REGISTER + reg` passed as `uint8_t`).
* Every function returns the list of the events it performs, in program
  order: pin changes, busy-wait delays, SPI byte exchanges, the read of the
  ADC data register and the writes to the global variables.
* An array access outside the bounds of the array is undefined behaviour in C;
  the embedding returns `none` there.
* The bytes shifted in from the transceiver are an input of the program:
  `miso k` is the byte received during the `k`-th exchange of an operation.
-/

namespace AudioTx

set_option maxRecDepth 100000

/-! ## Constants -/

/-- The macro `NRF_DATA_LENGTH` (main.c, line 22). -/
abbrev NRF_DATA_LENGTH : Nat := 32

/-- The macro `SET_REGISTER_DELAY` (main.c, line 23), in microseconds. -/
abbrev SET_REGISTER_DELAY : Nat := 100

/-- The macro `FREQ_DEVIDER` (main.c, line 24). -/
abbrev FREQ_DEVIDER : Nat := 10

/-- The macros of `../lib/nRF24L01.h` that `main.c` uses. The header is not
part of the sources, so the values are parameters of the embedding. -/
structure NrfHeader where
  R_REGISTER : Nat
  W_REGISTER : Nat
  R_RX_PAYLOAD : Nat
  W_TX_PAYLOAD : Nat
  NOP : Nat
  CONFIG : Nat
  EN_AA : Nat
  EN_RXADDR : Nat
  SETUP_AW : Nat
  SETUP_RETR : Nat
  RF_CH : Nat
  RF_SETUP : Nat
  STATUS : Nat
  RX_ADDR_P0 : Nat
  TX_ADDR : Nat
  RX_PW_P0 : Nat

/-- The values of these macros in the register map of the nRF24L01 data
sheet; used where a statement is evaluated on concrete inputs. -/
def dataSheet : NrfHeader :=
  { R_REGISTER := 0x00
    W_REGISTER := 0x20
    R_RX_PAYLOAD := 0x61
    W_TX_PAYLOAD := 0xA0
    NOP := 0xFF
    CONFIG := 0x00
    EN_AA := 0x01
    EN_RXADDR := 0x02
    SETUP_AW := 0x03
    SETUP_RETR := 0x04
    RF_CH := 0x05
    RF_SETUP := 0x06
    STATUS := 0x07
    RX_ADDR_P0 := 0x0A
    TX_ADDR := 0x10
    RX_PW_P0 := 0x11 }

/-! ## Events -/

/-- The observable actions of the firmware. -/
inductive Event where
  /-- `CSN_LOW()`: chip-select asserted. -/
  | csnLow
  /-- `CSN_HIGH()`: chip-select de-asserted. -/
  | csnHigh
  /-- `CE_LOW()`: enable line de-asserted. -/
  | ceLow
  /-- `CE_HIGH()`: enable line asserted. -/
  | ceHigh
  /-- `_delay_us(us)`. -/
  | delayUs (us : Nat)
  /-- `_delay_ms(ms)`. -/
  | delayMs (ms : Nat)
  /-- `writeMSPI(data)`: one byte exchanged on the SPI bus, `data` sent. -/
  | exchange (data : Nat)
  /-- A read of the ADC data register `ADCH` that returned `v`. -/
  | rADCH (v : Nat)
  /-- `ovfCounter = v`. -/
  | wOvfCounter (v : Nat)
  /-- `buffer[k][i] = v`. -/
  | wBuffer (k i v : Nat)
  /-- `bufferCounter = v`. -/
  | wBufferCounter (v : Nat)
  /-- `readyBuffer = v`. -/
  | wReadyBuffer (v : Int)
  /-- `currentBuffer = v`. -/
  | wCurrentBuffer (v : Nat)
  deriving DecidableEq, Repr

/-! ## Global variables -/

/-- The array `uint8_t buffer[2][NRF_DATA_LENGTH]` (main.c, line 37). -/
abbrev Buffers : Type := Fin 2 → Fin NRF_DATA_LENGTH → Nat

/-- The global variables of main.c (lines 34-37 and 205). -/
structure State where
  bufferCounter : Nat
  currentBuffer : Nat
  readyBuffer : Int
  buffer : Buffers
  ovfCounter : Nat

/-- The values of the globals when `main` starts: the initialisers of lines
34-36 and 205, and zero-initialised static storage for `buffer`. -/
def init : State :=
  { bufferCounter := 0
    currentBuffer := 0
    readyBuffer := -1
    buffer := fun _ _ => 0
    ovfCounter := 0 }

/-- The store `buffer[k][i] = v`; `none` when an index is out of bounds. -/
def storeBuffer (buf : Buffers) (k i v : Nat) : Option Buffers :=
  if k < 2 ∧ i < NRF_DATA_LENGTH then
    some (fun k1 i1 => if k1.val = k ∧ i1.val = i then v else buf k1 i1)
  else none

/-- The read `buffer[k][i]`; `none` when an index is out of bounds. -/
def loadBuffer (buf : Buffers) (k i : Nat) : Option Nat :=
  if h : k < 2 ∧ i < NRF_DATA_LENGTH then some (buf ⟨k, h.1⟩ ⟨i, h.2⟩) else none

/-- The row `buffer[b]` as the array of its `NRF_DATA_LENGTH` bytes; `none`
when `b` is not the index of a row. -/
def bufferRow (buf : Buffers) (b : Int) : Option (List Nat) :=
  if b = 0 then some (List.ofFn (buf 0))
  else if b = 1 then some (List.ofFn (buf 1))
  else none

/-! ## SPI transport and the transceiver command protocol (lines 44-106) -/

/-- `writeMSPI` (lines 44-52): `data` is shifted out, the busy-wait on `SPIF`
ends when the exchange is complete, and the byte `spdr` that was shifted in
is returned. -/
def writeMSPI (data spdr : Nat) : Nat × List Event :=
  (spdr, [Event.exchange data])

/-- `initNrfRegister` (lines 54-59). The byte returned by `writeMSPI` is
discarded. -/
def initNrfRegister (miso : Nat → Nat) (reg : Nat) : List Event :=
  [Event.csnLow, Event.delayUs SET_REGISTER_DELAY]
    ++ (writeMSPI reg (miso 0)).2
    ++ [Event.delayUs SET_REGISTER_DELAY]

/-- The loop of `setNrfTransmitData` (lines 77-80), entered with loop variable
`i` and `n = data_length - i` iterations to go. -/
def setNrfTransmitData_loop (miso : Nat → Nat) (data : List Nat) :
    Nat → Nat → Option (List Event)
  | 0, _ => some []
  | n + 1, i =>
    match data[i]? with
    | none => none
    | some b =>
      match setNrfTransmitData_loop miso data n (i + 1) with
      | none => none
      | some rest =>
        some ((writeMSPI b (miso (i + 1))).2 ++ [Event.delayUs SET_REGISTER_DELAY] ++ rest)

/-- `setNrfTransmitData` (lines 73-83). `data` is the array the pointer
argument refers to. -/
def setNrfTransmitData (h : NrfHeader) (miso : Nat → Nat) (data : List Nat)
    (data_length : Nat) : Option (List Event) :=
  match setNrfTransmitData_loop miso data data_length 0 with
  | none => none
  | some body => some (initNrfRegister miso h.W_TX_PAYLOAD ++ body ++ [Event.csnHigh])

/-- The loop of `setNrfRegister` (lines 89-92), entered with loop variable `i`
and `n = count - i` iterations to go. -/
def setNrfRegister_loop (miso : Nat → Nat) (val : Nat) : Nat → Nat → List Event
  | 0, _ => []
  | n + 1, i =>
    (writeMSPI val (miso (i + 1))).2 ++ [Event.delayUs SET_REGISTER_DELAY]
      ++ setNrfRegister_loop miso val n (i + 1)

/-- `setNrfRegister` (lines 85-95). The sum `W_REGISTER + reg` is converted to
the `uint8_t` parameter of `initNrfRegister`. -/
def setNrfRegister (h : NrfHeader) (miso : Nat → Nat) (reg val count : Nat) : List Event :=
  initNrfRegister miso ((h.W_REGISTER + reg) % 256)
    ++ setNrfRegister_loop miso val count 0
    ++ [Event.csnHigh]

/-- The loop of `getNrfReceivedData` (lines 65-68), entered with loop variable
`i` and `n = NRF_DATA_LENGTH - i` iterations to go; `data` is the array the
pointer argument refers to, and the store `data[i] = ...` outside of it gives
`none`. -/
def getNrfReceivedData_loop (h : NrfHeader) (miso : Nat → Nat) :
    Nat → Nat → List Nat → Option (List Nat × List Event)
  | 0, _, data => some (data, [])
  | n + 1, i, data =>
    let r := writeMSPI h.NOP (miso (i + 1))
    if i < data.length then
      match getNrfReceivedData_loop h miso n (i + 1) (data.set i r.1) with
      | none => none
      | some (data1, rest) =>
        some (data1, r.2 ++ [Event.delayUs SET_REGISTER_DELAY] ++ rest)
    else none

/-- `getNrfReceivedData` (lines 61-71): returns the array after the call and
the trace. -/
def getNrfReceivedData (h : NrfHeader) (miso : Nat → Nat) (data : List Nat) :
    Option (List Nat × List Event) :=
  match getNrfReceivedData_loop h miso NRF_DATA_LENGTH 0 data with
  | none => none
  | some (data1, body) =>
    some (data1, initNrfRegister miso h.R_RX_PAYLOAD ++ body ++ [Event.csnHigh])

/-- `getNfrRegister` (lines 97-106): returns the byte received during the
exchange of `NOP`, and the trace. The sum `R_REGISTER + reg` is converted to
the `uint8_t` parameter of `initNrfRegister`. -/
def getNfrRegister (h : NrfHeader) (miso : Nat → Nat) (reg : Nat) : Nat × List Event :=
  let r := writeMSPI h.NOP (miso 1)
  (r.1,
    initNrfRegister miso ((h.R_REGISTER + reg) % 256)
      ++ r.2 ++ [Event.delayUs SET_REGISTER_DELAY]
      ++ [Event.csnHigh])

/-- `initNrf` (lines 108-146); `miso j` is the stream of the bytes received
during the `j`-th register write. -/
def initNrf (h : NrfHeader) (miso : Nat → Nat → Nat) : List Event :=
  [Event.csnHigh, Event.ceLow, Event.delayMs 100]
    ++ setNrfRegister h (miso 0) h.EN_AA 0x00 1
    ++ setNrfRegister h (miso 1) h.SETUP_RETR 0x2F 1
    ++ setNrfRegister h (miso 2) h.EN_RXADDR 0x01 1
    ++ setNrfRegister h (miso 3) h.SETUP_AW 0x03 1
    ++ setNrfRegister h (miso 4) h.RF_CH 0x01 1
    ++ setNrfRegister h (miso 5) h.RF_SETUP 0x07 1
    ++ setNrfRegister h (miso 6) h.RX_ADDR_P0 0x12 5
    ++ setNrfRegister h (miso 7) h.TX_ADDR 0x12 5
    ++ setNrfRegister h (miso 8) h.RX_PW_P0 NRF_DATA_LENGTH 1
    ++ setNrfRegister h (miso 9) h.CONFIG 0b00010010 1
    ++ [Event.delayMs 100]

/-! ## The main loop (lines 194-200) -/

/-- One iteration of the `while(1)` loop of `main` (lines 195-199). -/
def mainLoopBody (h : NrfHeader) (miso : Nat → Nat) (s : State) :
    Option (State × List Event) :=
  if s.readyBuffer ≠ -1 then
    let b := s.readyBuffer
    let s1 := { s with readyBuffer := -1 }
    match bufferRow s1.buffer b with
    | none => none
    | some data =>
      match setNrfTransmitData h miso data NRF_DATA_LENGTH with
      | none => none
      | some tr => some (s1, Event.wReadyBuffer (-1) :: tr)
  else some (s, [])

/-- The call `setNrfTransmitData(buffer[b], NRF_DATA_LENGTH)` of line 198. -/
def sendRow (h : NrfHeader) (miso : Nat → Nat) (buf : Buffers) (b : Int) :
    Option (List Event) :=
  match bufferRow buf b with
  | none => none
  | some data => setNrfTransmitData h miso data NRF_DATA_LENGTH

/-! ## The timer interrupt (lines 205-221) -/

/-- `ISR(TIMER2_OVF_vect)` (lines 206-221) with the macro `FREQ_DEVIDER`
as the parameter `freqDevider`; `adch` is the value of the ADC data register
at the time of the interrupt. -/
def TIMER2_OVF_vect (freqDevider adch : Nat) (s : State) : Option (State × List Event) :=
  let ovf := (s.ovfCounter + 1) % 256
  if ovf > freqDevider then
    match storeBuffer s.buffer s.currentBuffer s.bufferCounter adch with
    | none => none
    | some buf =>
      let cnt := (s.bufferCounter + 1) % 256
      if cnt = NRF_DATA_LENGTH then
        let cur := if s.currentBuffer = 0 then 1 else 0
        some ({ bufferCounter := 0
                currentBuffer := cur
                readyBuffer := (s.currentBuffer : Int)
                buffer := buf
                ovfCounter := 0 },
              [Event.wOvfCounter ovf, Event.wOvfCounter 0, Event.rADCH adch,
               Event.wBuffer s.currentBuffer s.bufferCounter adch,
               Event.wBufferCounter cnt, Event.wBufferCounter 0,
               Event.wReadyBuffer (s.currentBuffer : Int), Event.wCurrentBuffer cur])
      else
        some ({ s with bufferCounter := cnt, buffer := buf, ovfCounter := 0 },
              [Event.wOvfCounter ovf, Event.wOvfCounter 0, Event.rADCH adch,
               Event.wBuffer s.currentBuffer s.bufferCounter adch,
               Event.wBufferCounter cnt])
  else
    some ({ s with ovfCounter := ovf }, [Event.wOvfCounter ovf])

/-! ## Executions -/

/-- A run of the interrupt handler alone: one call per timer overflow, the
list gives the value of `ADCH` at each overflow. -/
def runTicks (freqDevider : Nat) : List Nat → State → Option (State × List Event)
  | [], s => some (s, [])
  | adch :: rest, s =>
    match TIMER2_OVF_vect freqDevider adch s with
    | none => none
    | some (s1, t1) =>
      match runTicks freqDevider rest s1 with
      | none => none
      | some (s2, t2) => some (s2, t1 ++ t2)

/-- One atomic step of the system: a timer interrupt, or one iteration of the
main loop. -/
inductive Step where
  | tick (adch : Nat)
  | poll (miso : Nat → Nat)

/-- The effect of one step. -/
def step (h : NrfHeader) (freqDevider : Nat) : Step → State → Option (State × List Event)
  | Step.tick adch, s => TIMER2_OVF_vect freqDevider adch s
  | Step.poll miso, s => mainLoopBody h miso s

/-- A run of an interleaving of interrupts and main-loop iterations. -/
def run (h : NrfHeader) (freqDevider : Nat) : List Step → State → Option (State × List Event)
  | [], s => some (s, [])
  | x :: rest, s =>
    match step h freqDevider x s with
    | none => none
    | some (s1, t1) =>
      match run h freqDevider rest s1 with
      | none => none
      | some (s2, t2) => some (s2, t1 ++ t2)

/-- The states the firmware can be in between two steps. -/
def Reachable (h : NrfHeader) (freqDevider : Nat) (s : State) : Prop :=
  ∃ steps tr, run h freqDevider steps init = some (s, tr)

/-- The states the interrupt handler alone can bring the firmware to. -/
def ReachableByTicks (freqDevider : Nat) (s : State) : Prop :=
  ∃ ticks tr, runTicks freqDevider ticks init = some (s, tr)

/-! ## Projections of a trace -/

/-- The samples read from `ADCH`, in order. -/
def adchReads (tr : List Event) : List Nat :=
  tr.filterMap (fun e => match e with
    | Event.rADCH v => some v
    | _ => none)

/-- The values written to `readyBuffer`, in order. -/
def readyWrites (tr : List Event) : List Int :=
  tr.filterMap (fun e => match e with
    | Event.wReadyBuffer v => some v
    | _ => none)

/-- The buffer indices published in `readyBuffer`, in order: the values
written to it other than the consumer's `-1`. -/
def published (tr : List Event) : List Int :=
  (readyWrites tr).filter (fun v => decide (v ≠ -1))

/-- The writes to `buffer` and to `readyBuffer`, in order. -/
def sharedWrites (tr : List Event) : List Event :=
  tr.filter (fun e => match e with
    | Event.wBuffer _ _ _ => true
    | Event.wReadyBuffer _ => true
    | _ => false)

/-- The events on the pins and on the SPI bus (everything but the accesses to
the globals and to `ADCH`), in order. -/
def transportEvents (tr : List Event) : List Event :=
  tr.filter (fun e => match e with
    | Event.rADCH _ => false
    | Event.wOvfCounter _ => false
    | Event.wBuffer _ _ _ => false
    | Event.wBufferCounter _ => false
    | Event.wReadyBuffer _ => false
    | Event.wCurrentBuffer _ => false
    | _ => true)

/-- The stores `buffer[k][i] = v₀`, `buffer[k][i+1] = v₁`, ... of the values
`vs` into consecutive cells of row `k`, starting at cell `i`. -/
def storesFrom (k : Nat) : Nat → List Nat → List Event
  | _, [] => []
  | i, v :: vs => Event.wBuffer k i v :: storesFrom k (i + 1) vs

/-- The invariant of the producer's indices: the active index is `0` or `1`,
the write cursor is below `NRF_DATA_LENGTH`, and the marker is `-1`, `0` or
`1`. -/
def Inv (s : State) : Prop :=
  s.currentBuffer < 2 ∧ s.bufferCounter < NRF_DATA_LENGTH ∧
    (s.readyBuffer = -1 ∨ s.readyBuffer = 0 ∨ s.readyBuffer = 1)

/-- The trace of the data bytes `bytes` sent one after the other, each
followed by the settle delay. -/
def dataBytes (bytes : List Nat) : List Event :=
  bytes.flatMap (fun b => [Event.exchange b, Event.delayUs SET_REGISTER_DELAY])

/-! ## Chip-select framing -/

/-- The bytes sent on the SPI bus, in order. -/
def exchanges (tr : List Event) : List Nat :=
  tr.filterMap (fun e => match e with
    | Event.exchange b => some b
    | _ => none)

/-- Whether the trace contains no change of the chip-select line. -/
def noCsn (tr : List Event) : Bool :=
  tr.all (fun e => match e with
    | Event.csnLow => false
    | Event.csnHigh => false
    | _ => true)

/-- Whether every byte exchange of the trace is immediately followed by the
delay `_delay_us(SET_REGISTER_DELAY)`. -/
def exchangesSettled : List Event → Bool
  | [] => true
  | Event.exchange _ :: rest =>
    (match rest with
      | Event.delayUs us :: _ => decide (us = SET_REGISTER_DELAY)
      | _ => false) && exchangesSettled rest
  | _ :: rest => exchangesSettled rest

/-- The level of the chip-select line after a trace that starts with the line
at `level`; `true` is high (de-asserted), `false` is low (asserted). -/
def csnLevel (level : Bool) : List Event → Bool
  | [] => level
  | Event.csnLow :: rest => csnLevel false rest
  | Event.csnHigh :: rest => csnLevel true rest
  | _ :: rest => csnLevel level rest

/-- Whether every byte exchange of a trace that starts with the chip-select
line at `level` happens while the line is low (asserted). -/
def exchangesAsserted (level : Bool) : List Event → Bool
  | [] => true
  | Event.csnLow :: rest => exchangesAsserted false rest
  | Event.csnHigh :: rest => exchangesAsserted true rest
  | Event.exchange _ :: rest => !level && exchangesAsserted level rest
  | _ :: rest => exchangesAsserted level rest

/-- The framing of one operation: the trace is chip-select low, the settle
delay, a body without any change of chip-select, chip-select high; and every
byte exchange is immediately followed by the settle delay. -/
def Framed (tr : List Event) : Prop :=
  ∃ body, tr = [Event.csnLow, Event.delayUs SET_REGISTER_DELAY] ++ body ++ [Event.csnHigh] ∧
    noCsn body = true ∧ exchangesSettled tr = true

/-! ## The operations of the command protocol -/

/-- A call of one of the five functions of lines 54-106, with its
arguments. -/
inductive Operation where
  | callInitNrfRegister (reg : Nat)
  | callGetNrfReceivedData (data : List Nat)
  | callSetNrfTransmitData (data : List Nat) (data_length : Nat)
  | callSetNrfRegister (reg val count : Nat)
  | callGetNfrRegister (reg : Nat)

/-- The effect of a call: the byte returned to the caller (`none` for a
function that returns `void`) and the trace; `none` when the call accesses an
array out of bounds. -/
def execOperation (h : NrfHeader) (miso : Nat → Nat) :
    Operation → Option (Option Nat × List Event)
  | Operation.callInitNrfRegister reg => some (none, initNrfRegister miso reg)
  | Operation.callGetNrfReceivedData data =>
    match getNrfReceivedData h miso data with
    | none => none
    | some (_, tr) => some (none, tr)
  | Operation.callSetNrfTransmitData data data_length =>
    match setNrfTransmitData h miso data data_length with
    | none => none
    | some tr => some (none, tr)
  | Operation.callSetNrfRegister reg val count =>
    some (none, setNrfRegister h miso reg val count)
  | Operation.callGetNfrRegister reg =>
    some (some (getNfrRegister h miso reg).1, (getNfrRegister h miso reg).2)

/-- A no-operation / status probe: a call that, whatever the transceiver
answers, sends the opcode `NOP` and no other byte, and returns to the caller
the byte received while that command byte was sent. -/
def IsStatusProbe (h : NrfHeader) (op : Operation) : Prop :=
  ∀ miso : Nat → Nat, ∃ tr,
    execOperation h miso op = some (some (miso 0), tr) ∧ exchanges tr = [h.NOP]

/-! ## Publications and sends along a run -/

/-- The ownership invariant: the indices are in range and a pending buffer
is not the active buffer. -/
def Own (s : State) : Prop :=
  Inv s ∧ s.readyBuffer ≠ (s.currentBuffer : Int)

/-- The frame of one Send of the bytes `data`. -/
def sendFrame (h : NrfHeader) (data : List Nat) : List Event :=
  [Event.csnLow, Event.delayUs SET_REGISTER_DELAY,
    Event.exchange h.W_TX_PAYLOAD, Event.delayUs SET_REGISTER_DELAY]
    ++ dataBytes data ++ [Event.csnHigh]

/-- The buffer `b` with its present contents, when `b` is the index of a
buffer. -/
def snapshot (buf : Buffers) (b : Int) : List (Int × List Nat) :=
  match bufferRow buf b with
  | none => []
  | some data => [(b, data)]

/-- The buffer marked pending in state `s`, with its contents. -/
def pending (s : State) : List (Int × List Nat) :=
  if s.readyBuffer = -1 then [] else snapshot s.buffer s.readyBuffer

/-- The publications made along a run: for every index written to
`readyBuffer` by a timer tick, the index and the contents of that buffer
right after the tick. -/
def publications (h : NrfHeader) (d : Nat) : List Step → State → List (Int × List Nat)
  | [], _ => []
  | x :: rest, s =>
    match step h d x s with
    | none => []
    | some (s1, t1) =>
      (published t1).flatMap (fun k => snapshot s1.buffer k) ++ publications h d rest s1

/-- The calls `setNrfTransmitData(buffer[b], NRF_DATA_LENGTH)` made along a
run: for every main-loop iteration that finds `readyBuffer ≠ -1`, the index
`b` it captures and the contents of `buffer[b]` at that moment. -/
def sends (h : NrfHeader) (d : Nat) : List Step → State → List (Int × List Nat)
  | [], _ => []
  | x :: rest, s =>
    match step h d x s with
    | none => []
    | some (s1, _) =>
      (match x with
        | Step.poll _ => pending s
        | Step.tick _ => []) ++ sends h d rest s1

/-- Whether, along the run, at least one main-loop iteration runs between
every two consecutive buffer completions; `waiting` tells whether a buffer
was completed since the last main-loop iteration. -/
def pollBetweenCompletions (h : NrfHeader) (d : Nat) : Bool → List Step → State → Bool
  | _, [], _ => true
  | waiting, x :: rest, s =>
    match step h d x s with
    | none => true
    | some (s1, t1) =>
      match x with
      | Step.poll _ => pollBetweenCompletions h d false rest s1
      | Step.tick _ =>
        if published t1 = [] then pollBetweenCompletions h d waiting rest s1
        else !waiting && pollBetweenCompletions h d true rest s1

/-- The chip-select discipline of one operation: the trace is framed, and
whatever the level of the line before the operation, every byte is exchanged
while the line is low and the line is high at the end. -/
def WellFramed (tr : List Event) : Prop :=
  Framed tr ∧ ∀ level : Bool, exchangesAsserted level tr = true ∧ csnLevel level tr = true

/-- The trace of a register write with command byte `(W_REGISTER + reg) mod
256` and `count` data bytes equal to `val`. -/
def registerWrite (h : NrfHeader) (reg val count : Nat) : List Event :=
  [Event.csnLow, Event.delayUs SET_REGISTER_DELAY,
    Event.exchange ((h.W_REGISTER + reg) % 256), Event.delayUs SET_REGISTER_DELAY]
    ++ (List.replicate count [Event.exchange val, Event.delayUs SET_REGISTER_DELAY]).flatten
    ++ [Event.csnHigh]

/-- A run in which the main loop keeps up with the producer: a buffer of
sevens is completed and sent, then a buffer of nines, then a buffer of fives
is completed and left pending. -/
def fastRun : List Step :=
  (List.replicate 352 7).map Step.tick ++ [Step.poll (fun _ => 0)]
    ++ (List.replicate 352 9).map Step.tick ++ [Step.poll (fun _ => 0)]
    ++ (List.replicate 352 5).map Step.tick

/-! ## Send framing and register writes -/

theorem setNrfTransmitData_loop_eq (miso : Nat → Nat) (data : List Nat) :
    ∀ n i, i + n ≤ data.length →
      setNrfTransmitData_loop miso data n i = some (dataBytes ((data.drop i).take n)) := by
  intro n
  induction n with
  | zero => intro i _; simp [setNrfTransmitData_loop, dataBytes]
  | succ n ih =>
    intro i hi
    have hlt : i < data.length := by omega
    have hd : data.drop i = data[i] :: data.drop (i + 1) := List.drop_eq_getElem_cons hlt
    rw [hd, List.take_succ_cons]
    simp only [setNrfTransmitData_loop, List.getElem?_eq_getElem hlt, ih (i + 1) (by omega),
      dataBytes, writeMSPI, List.flatMap_cons, List.cons_append, List.nil_append]

theorem setNrfRegister_loop_eq (miso : Nat → Nat) (val : Nat) :
    ∀ n i, setNrfRegister_loop miso val n i = dataBytes (List.replicate n val) := by
  intro n
  induction n with
  | zero => intro i; simp [setNrfRegister_loop, dataBytes]
  | succ n ih =>
    intro i
    simp [setNrfRegister_loop, ih (i + 1), dataBytes, writeMSPI, List.replicate_succ]

/-- The trace of `setNrfTransmitData(data, L)` when the `L` bytes it reads lie
inside the array `data`. -/
theorem setNrfTransmitData_eq (h : NrfHeader) (miso : Nat → Nat) (data : List Nat) (L : Nat)
    (hL : L ≤ data.length) :
    setNrfTransmitData h miso data L
      = some ([Event.csnLow, Event.delayUs SET_REGISTER_DELAY,
                Event.exchange h.W_TX_PAYLOAD, Event.delayUs SET_REGISTER_DELAY]
              ++ dataBytes (data.take L) ++ [Event.csnHigh]) := by
  have hloop := setNrfTransmitData_loop_eq miso data L 0 (by omega)
  simp [setNrfTransmitData, hloop, initNrfRegister, writeMSPI]

/-- C2. Send framing: for every array `data` of `NRF_DATA_LENGTH` bytes and
every length `L ≤ NRF_DATA_LENGTH`, `setNrfTransmitData(data, L)` returns and
its trace is exactly chip-select low, settle delay, the command byte
`W_TX_PAYLOAD`, settle delay, then the bytes `data[0..L-1]` in order, each
followed by the settle delay, then chip-select high. -/
theorem setNrfTransmitData_trace (h : NrfHeader) (miso : Nat → Nat) (data : List Nat) (L : Nat)
    (hdata : data.length = NRF_DATA_LENGTH) (hL : L ≤ NRF_DATA_LENGTH) :
    setNrfTransmitData h miso data L
      = some ([Event.csnLow, Event.delayUs SET_REGISTER_DELAY,
                Event.exchange h.W_TX_PAYLOAD, Event.delayUs SET_REGISTER_DELAY]
              ++ dataBytes (data.take L) ++ [Event.csnHigh]) := by
  exact setNrfTransmitData_eq h miso data L (by omega)

/-- C2 at the input of Scenario B: a buffer of `NRF_DATA_LENGTH` zero bytes
sent with length `NRF_DATA_LENGTH`. -/
theorem setNrfTransmitData_trace_witness :
    (List.replicate 32 0).length = NRF_DATA_LENGTH ∧ 32 ≤ NRF_DATA_LENGTH ∧
    setNrfTransmitData dataSheet (fun _ => 0) (List.replicate 32 0) 32
      = some ([Event.csnLow, Event.delayUs SET_REGISTER_DELAY,
                Event.exchange dataSheet.W_TX_PAYLOAD, Event.delayUs SET_REGISTER_DELAY]
              ++ dataBytes ((List.replicate 32 0).take 32) ++ [Event.csnHigh]) :=
  ⟨by decide, by decide,
    setNrfTransmitData_trace dataSheet (fun _ => 0) (List.replicate 32 0) 32
      (by decide) (by decide)⟩

theorem dataBytes_replicate (n v : Nat) :
    dataBytes (List.replicate n v)
      = (List.replicate n [Event.exchange v, Event.delayUs SET_REGISTER_DELAY]).flatten := by
  induction n with
  | zero => simp [dataBytes]
  | succ n ih =>
    simp only [dataBytes] at ih
    simp [dataBytes, List.replicate_succ, ih]

/-- C3. Register write encoding: for every register number `R`, value `V` and
count `C`, the trace of `setNrfRegister(R, V, C)` is exactly chip-select low,
settle delay, the command byte `(W_REGISTER + R) mod 256`, settle delay, then
`C` repetitions of the pair (exchange of `V`, settle delay), then chip-select
high. -/
theorem setNrfRegister_trace (h : NrfHeader) (miso : Nat → Nat) (R V C : Nat) :
    setNrfRegister h miso R V C
      = [Event.csnLow, Event.delayUs SET_REGISTER_DELAY,
          Event.exchange ((h.W_REGISTER + R) % 256), Event.delayUs SET_REGISTER_DELAY]
        ++ (List.replicate C [Event.exchange V, Event.delayUs SET_REGISTER_DELAY]).flatten
        ++ [Event.csnHigh] := by
  simp [setNrfRegister, setNrfRegister_loop_eq, initNrfRegister, writeMSPI, dataBytes_replicate]

/-! ## The consumer step -/

theorem bufferRow_length (buf : Buffers) (b : Int) (data : List Nat)
    (hrow : bufferRow buf b = some data) : data.length = NRF_DATA_LENGTH := by
  unfold bufferRow at hrow
  split_ifs at hrow <;> simp at hrow <;> subst hrow <;> simp

theorem sendRow_eq (h : NrfHeader) (miso : Nat → Nat) (buf : Buffers) (b : Int)
    (data : List Nat) (hrow : bufferRow buf b = some data) :
    sendRow h miso buf b
      = some ([Event.csnLow, Event.delayUs SET_REGISTER_DELAY,
                Event.exchange h.W_TX_PAYLOAD, Event.delayUs SET_REGISTER_DELAY]
              ++ dataBytes data ++ [Event.csnHigh]) := by
  have hlen := bufferRow_length buf b data hrow
  have hsend := setNrfTransmitData_eq h miso data NRF_DATA_LENGTH (le_of_eq hlen.symm)
  rw [List.take_of_length_le (by omega)] at hsend
  simp only [sendRow, hrow, hsend]

theorem mainLoopBody_eq (h : NrfHeader) (miso : Nat → Nat) (s : State)
    (hne : s.readyBuffer ≠ -1) :
    mainLoopBody h miso s
      = (sendRow h miso s.buffer s.readyBuffer).map
          (fun tr => ({ s with readyBuffer := -1 }, Event.wReadyBuffer (-1) :: tr)) := by
  unfold mainLoopBody sendRow
  rw [if_pos hne]
  cases hrow : bufferRow s.buffer s.readyBuffer with
  | none => simp [hrow]
  | some data =>
    simp only [hrow]
    cases hsend : setNrfTransmitData h miso data NRF_DATA_LENGTH <;> simp

/-- C4. Consumer step, clear-before-send. For every state, one iteration of
the main loop does the following. With `readyBuffer = -1` it returns the
state unchanged and an empty trace. With `readyBuffer = K`, `K ≠ -1`, it is
the write `readyBuffer = -1` followed by exactly the trace of
`setNrfTransmitData(buffer[K], NRF_DATA_LENGTH)`, and the state it returns is
the old one with `readyBuffer` set to `-1`; when `K` is the index of a buffer
that call returns, with the framed trace of the `NRF_DATA_LENGTH` bytes of
`buffer[K]`. Whenever the iteration returns, `buffer`, `currentBuffer`,
`bufferCounter` and `ovfCounter` are unchanged. -/
theorem mainLoopBody_clear_then_send (h : NrfHeader) (miso : Nat → Nat) (s : State) :
    (s.readyBuffer = -1 → mainLoopBody h miso s = some (s, [])) ∧
    (s.readyBuffer ≠ -1 →
      mainLoopBody h miso s
        = (sendRow h miso s.buffer s.readyBuffer).map
            (fun tr => ({ s with readyBuffer := -1 }, Event.wReadyBuffer (-1) :: tr))) ∧
    (s.readyBuffer = 0 ∨ s.readyBuffer = 1 →
      ∃ data, bufferRow s.buffer s.readyBuffer = some data ∧
        data.length = NRF_DATA_LENGTH ∧
        setNrfTransmitData h miso data NRF_DATA_LENGTH
          = some ([Event.csnLow, Event.delayUs SET_REGISTER_DELAY,
                    Event.exchange h.W_TX_PAYLOAD, Event.delayUs SET_REGISTER_DELAY]
                  ++ dataBytes data ++ [Event.csnHigh]) ∧
        mainLoopBody h miso s
          = some ({ s with readyBuffer := -1 },
                  Event.wReadyBuffer (-1) ::
                    ([Event.csnLow, Event.delayUs SET_REGISTER_DELAY,
                       Event.exchange h.W_TX_PAYLOAD, Event.delayUs SET_REGISTER_DELAY]
                     ++ dataBytes data ++ [Event.csnHigh]))) ∧
    (∀ s1 tr, mainLoopBody h miso s = some (s1, tr) →
      s1.buffer = s.buffer ∧ s1.currentBuffer = s.currentBuffer ∧
      s1.bufferCounter = s.bufferCounter ∧ s1.ovfCounter = s.ovfCounter ∧
      s1.readyBuffer = -1) := by
  refine ⟨?_, mainLoopBody_eq h miso s, ?_, ?_⟩
  · intro hready
    simp [mainLoopBody, hready]
  · intro hK
    have hne : s.readyBuffer ≠ -1 := by rcases hK with h0 | h1 <;> omega
    have hrow : ∃ data, bufferRow s.buffer s.readyBuffer = some data := by
      rcases hK with h0 | h0 <;> simp [bufferRow, h0]
    obtain ⟨data, hrow⟩ := hrow
    have hlen := bufferRow_length _ _ _ hrow
    have hsend := setNrfTransmitData_eq h miso data NRF_DATA_LENGTH (le_of_eq hlen.symm)
    rw [List.take_of_length_le (by omega)] at hsend
    refine ⟨data, hrow, hlen, hsend, ?_⟩
    rw [mainLoopBody_eq h miso s hne, sendRow_eq h miso _ _ data hrow]
    rfl
  · intro s1 tr hrun
    by_cases hready : s.readyBuffer = -1
    · simp [mainLoopBody, hready] at hrun
      obtain ⟨rfl, _⟩ := hrun
      simp [hready]
    · rw [mainLoopBody_eq h miso s hready] at hrun
      cases hsend : sendRow h miso s.buffer s.readyBuffer with
      | none => simp [hsend] at hrun
      | some t =>
        simp [hsend] at hrun
        obtain ⟨rfl, _⟩ := hrun
        simp

/-! ## Basic facts about the buffers and the traces -/

theorem loadBuffer_storeBuffer_same (buf buf1 : Buffers) (k i v : Nat)
    (hst : storeBuffer buf k i v = some buf1) : loadBuffer buf1 k i = some v := by
  unfold storeBuffer at hst
  split_ifs at hst with hb
  simp only [Option.some.injEq] at hst
  subst hst
  simp [loadBuffer, hb]

theorem loadBuffer_storeBuffer_other (buf buf1 : Buffers) (k i v k1 i1 : Nat)
    (hst : storeBuffer buf k i v = some buf1) (hne : k1 ≠ k ∨ i1 ≠ i) :
    loadBuffer buf1 k1 i1 = loadBuffer buf k1 i1 := by
  unfold storeBuffer at hst
  split_ifs at hst with hb
  simp only [Option.some.injEq] at hst
  subst hst
  unfold loadBuffer
  split_ifs with hb1
  · have : ¬ (k1 = k ∧ i1 = i) := by
      rintro ⟨h1, h2⟩
      rcases hne with h | h <;> contradiction
    simp [this]
  · rfl

theorem storeBuffer_isSome (buf : Buffers) (k i v : Nat) (hk : k < 2)
    (hi : i < NRF_DATA_LENGTH) : ∃ buf1, storeBuffer buf k i v = some buf1 := by
  simp [storeBuffer, hk, hi]

theorem bufferRow_eq_of_loadBuffer (buf : Buffers) (K : Nat) (hK : K < 2) (vs : List Nat)
    (hlen : vs.length = NRF_DATA_LENGTH)
    (hcell : ∀ i, i < NRF_DATA_LENGTH → loadBuffer buf K i = vs[i]?) :
    bufferRow buf (K : Int) = some vs := by
  have hrow : bufferRow buf (K : Int) = some (List.ofFn (buf ⟨K, hK⟩)) := by
    have h01 : K = 0 ∨ K = 1 := by omega
    rcases h01 with rfl | rfl <;> simp [bufferRow]
  rw [hrow]
  congr 1
  apply List.ext_getElem
  · simp [hlen]
  · intro i h1 h2
    have hi : i < NRF_DATA_LENGTH := by simpa using h1
    have := hcell i hi
    simp only [loadBuffer, hK, hi, and_self, dite_true, List.getElem?_eq_getElem h2,
      Option.some.injEq] at this
    rw [List.getElem_ofFn]
    exact this

theorem adchReads_append (a b : List Event) : adchReads (a ++ b) = adchReads a ++ adchReads b := by
  simp [adchReads]

theorem readyWrites_append (a b : List Event) :
    readyWrites (a ++ b) = readyWrites a ++ readyWrites b := by
  simp [readyWrites]

theorem published_append (a b : List Event) : published (a ++ b) = published a ++ published b := by
  simp [published, readyWrites_append]

theorem sharedWrites_append (a b : List Event) :
    sharedWrites (a ++ b) = sharedWrites a ++ sharedWrites b := by
  simp [sharedWrites]

theorem transportEvents_append (a b : List Event) :
    transportEvents (a ++ b) = transportEvents a ++ transportEvents b := by
  simp [transportEvents]

theorem storesFrom_append (k : Nat) (vs ws : List Nat) :
    ∀ i, storesFrom k i (vs ++ ws) = storesFrom k i vs ++ storesFrom k (i + vs.length) ws := by
  induction vs with
  | nil => intro i; simp [storesFrom]
  | cons v vs ih =>
    intro i
    have hidx : i + 1 + vs.length = i + (vs.length + 1) := by omega
    have hstep := ih (i + 1)
    rw [hidx] at hstep
    rw [List.cons_append]
    simp only [storesFrom, List.length_cons, hstep, List.cons_append]

/-! ## One timer interrupt -/

/-- The three ways a timer interrupt can go from a state whose indices are in
range: a skipped tick, an accepted sample that leaves the buffer incomplete,
and an accepted sample that completes it. -/
theorem tick_cases (d v : Nat) (s : State) (hcur : s.currentBuffer < 2)
    (hcnt : s.bufferCounter < NRF_DATA_LENGTH) :
    (¬ (s.ovfCounter + 1) % 256 > d ∧
      TIMER2_OVF_vect d v s
        = some ({ s with ovfCounter := (s.ovfCounter + 1) % 256 },
                [Event.wOvfCounter ((s.ovfCounter + 1) % 256)])) ∨
    ((s.ovfCounter + 1) % 256 > d ∧
      ∃ buf, storeBuffer s.buffer s.currentBuffer s.bufferCounter v = some buf ∧
        ((s.bufferCounter + 1 < NRF_DATA_LENGTH ∧
          TIMER2_OVF_vect d v s
            = some ({ s with bufferCounter := s.bufferCounter + 1, buffer := buf,
                             ovfCounter := 0 },
                    [Event.wOvfCounter ((s.ovfCounter + 1) % 256), Event.wOvfCounter 0,
                     Event.rADCH v, Event.wBuffer s.currentBuffer s.bufferCounter v,
                     Event.wBufferCounter (s.bufferCounter + 1)])) ∨
         (s.bufferCounter + 1 = NRF_DATA_LENGTH ∧
          TIMER2_OVF_vect d v s
            = some ({ bufferCounter := 0
                      currentBuffer := 1 - s.currentBuffer
                      readyBuffer := (s.currentBuffer : Int)
                      buffer := buf
                      ovfCounter := 0 },
                    [Event.wOvfCounter ((s.ovfCounter + 1) % 256), Event.wOvfCounter 0,
                     Event.rADCH v, Event.wBuffer s.currentBuffer s.bufferCounter v,
                     Event.wBufferCounter NRF_DATA_LENGTH, Event.wBufferCounter 0,
                     Event.wReadyBuffer (s.currentBuffer : Int),
                     Event.wCurrentBuffer (1 - s.currentBuffer)])))) := by
  by_cases hacc : (s.ovfCounter + 1) % 256 > d
  · right
    refine ⟨hacc, ?_⟩
    obtain ⟨buf, hbuf⟩ := storeBuffer_isSome s.buffer _ _ v hcur hcnt
    refine ⟨buf, hbuf, ?_⟩
    have hmod : (s.bufferCounter + 1) % 256 = s.bufferCounter + 1 := by
      apply Nat.mod_eq_of_lt
      have : s.bufferCounter < 32 := hcnt
      omega
    have htoggle : (if s.currentBuffer = 0 then 1 else 0) = 1 - s.currentBuffer := by
      split_ifs <;> omega
    by_cases hlast : s.bufferCounter + 1 = NRF_DATA_LENGTH
    · right
      refine ⟨hlast, ?_⟩
      simp only [TIMER2_OVF_vect, hacc, if_true, hbuf, hmod, htoggle]
      simp only [hlast, if_true]
    · left
      have hlt : s.bufferCounter + 1 < NRF_DATA_LENGTH := by
        have : s.bufferCounter < 32 := hcnt
        have : ¬ s.bufferCounter + 1 = 32 := hlast
        show s.bufferCounter + 1 < 32
        omega
      refine ⟨hlt, ?_⟩
      simp only [TIMER2_OVF_vect, hacc, if_true, hbuf, hmod, hlast, if_false]
  · left
    refine ⟨hacc, ?_⟩
    simp only [TIMER2_OVF_vect, hacc, if_false]

/-! ## Runs -/

theorem runTicks_append (d : Nat) (xs ys : List Nat) :
    ∀ s, runTicks d (xs ++ ys) s
      = match runTicks d xs s with
        | none => none
        | some (s1, t1) =>
          match runTicks d ys s1 with
          | none => none
          | some (s2, t2) => some (s2, t1 ++ t2) := by
  induction xs with
  | nil =>
    intro s
    simp only [List.nil_append, runTicks, List.nil_append]
    cases runTicks d ys s with
    | none => rfl
    | some p => rfl
  | cons x xs ih =>
    intro s
    rw [List.cons_append]
    simp only [runTicks]
    cases TIMER2_OVF_vect d x s with
    | none => rfl
    | some p =>
      obtain ⟨s1, t1⟩ := p
      simp only [ih s1]
      cases runTicks d xs s1 with
      | none => rfl
      | some p2 =>
        obtain ⟨s2, t2⟩ := p2
        simp only
        cases runTicks d ys s2 with
        | none => rfl
        | some p3 => simp only [List.append_assoc]

theorem runTicks_singleton (d v : Nat) (s : State) :
    runTicks d [v] s = TIMER2_OVF_vect d v s := by
  simp only [runTicks]
  cases TIMER2_OVF_vect d v s with
  | none => rfl
  | some p => simp

theorem run_append (h : NrfHeader) (d : Nat) (xs ys : List Step) :
    ∀ s, run h d (xs ++ ys) s
      = match run h d xs s with
        | none => none
        | some (s1, t1) =>
          match run h d ys s1 with
          | none => none
          | some (s2, t2) => some (s2, t1 ++ t2) := by
  induction xs with
  | nil =>
    intro s
    simp only [List.nil_append, run, List.nil_append]
    cases run h d ys s with
    | none => rfl
    | some p => rfl
  | cons x xs ih =>
    intro s
    rw [List.cons_append]
    simp only [run]
    cases step h d x s with
    | none => rfl
    | some p =>
      obtain ⟨s1, t1⟩ := p
      simp only [ih s1]
      cases run h d xs s1 with
      | none => rfl
      | some p2 =>
        obtain ⟨s2, t2⟩ := p2
        simp only
        cases run h d ys s2 with
        | none => rfl
        | some p3 => simp only [List.append_assoc]

theorem Inv_init : Inv init := by
  simp [Inv, init]

theorem tick_Inv (d v : Nat) (s : State) (hinv : Inv s) :
    ∃ s1 tr, TIMER2_OVF_vect d v s = some (s1, tr) ∧ Inv s1 := by
  obtain ⟨hcur, hcnt, hready⟩ := hinv
  rcases tick_cases d v s hcur hcnt with ⟨_, hrun⟩ | ⟨_, buf, _, ⟨hlt, hrun⟩ | ⟨_, hrun⟩⟩
  · exact ⟨_, _, hrun, hcur, hcnt, hready⟩
  · exact ⟨_, _, hrun, hcur, hlt, hready⟩
  · refine ⟨_, _, hrun, ?_, ?_, ?_⟩
    · show 1 - s.currentBuffer < 2
      omega
    · show 0 < 32
      omega
    · show (s.currentBuffer : Int) = -1 ∨ (s.currentBuffer : Int) = 0 ∨ (s.currentBuffer : Int) = 1
      omega

theorem poll_Inv (h : NrfHeader) (miso : Nat → Nat) (s : State) (hinv : Inv s) :
    ∃ s1 tr, mainLoopBody h miso s = some (s1, tr) ∧ Inv s1 := by
  obtain ⟨hcur, hcnt, hready⟩ := hinv
  by_cases hne : s.readyBuffer = -1
  · refine ⟨s, [], ?_, hcur, hcnt, hready⟩
    simp [mainLoopBody, hne]
  · have hK : s.readyBuffer = 0 ∨ s.readyBuffer = 1 := by omega
    have hrow : ∃ data, bufferRow s.buffer s.readyBuffer = some data := by
      rcases hK with h0 | h0 <;> simp [bufferRow, h0]
    obtain ⟨data, hrow⟩ := hrow
    rw [mainLoopBody_eq h miso s hne, sendRow_eq h miso _ _ data hrow]
    exact ⟨_, _, rfl, hcur, hcnt, Or.inl rfl⟩

theorem runTicks_Inv (d : Nat) (ticks : List Nat) :
    ∀ s, Inv s → ∃ s1 tr, runTicks d ticks s = some (s1, tr) ∧ Inv s1 := by
  induction ticks with
  | nil => intro s hinv; exact ⟨s, [], rfl, hinv⟩
  | cons v rest ih =>
    intro s hinv
    obtain ⟨s1, t1, h1, hinv1⟩ := tick_Inv d v s hinv
    obtain ⟨s2, t2, h2, hinv2⟩ := ih s1 hinv1
    exact ⟨s2, t1 ++ t2, by simp only [runTicks, h1, h2], hinv2⟩

theorem run_Inv (h : NrfHeader) (d : Nat) (steps : List Step) :
    ∀ s, Inv s → ∃ s1 tr, run h d steps s = some (s1, tr) ∧ Inv s1 := by
  induction steps with
  | nil => intro s hinv; exact ⟨s, [], rfl, hinv⟩
  | cons x rest ih =>
    intro s hinv
    have hstep : ∃ s1 t1, step h d x s = some (s1, t1) ∧ Inv s1 := by
      cases x with
      | tick v => exact tick_Inv d v s hinv
      | poll miso => exact poll_Inv h miso s hinv
    obtain ⟨s1, t1, h1, hinv1⟩ := hstep
    obtain ⟨s2, t2, h2, hinv2⟩ := ih s1 hinv1
    exact ⟨s2, t1 ++ t2, by simp only [run, h1, h2], hinv2⟩

theorem Reachable_Inv (h : NrfHeader) (d : Nat) (s : State) (hreach : Reachable h d s) :
    Inv s := by
  obtain ⟨steps, tr, hrun⟩ := hreach
  obtain ⟨s1, t1, h1, hinv⟩ := run_Inv h d steps init Inv_init
  rw [h1] at hrun
  simp only [Option.some.injEq, Prod.mk.injEq] at hrun
  rw [← hrun.1]
  exact hinv

theorem Reachable_init (h : NrfHeader) (d : Nat) : Reachable h d init :=
  ⟨[], [], rfl⟩

/-! ## Filling one buffer -/

theorem tick_trace_skip (x : Nat) :
    adchReads [Event.wOvfCounter x] = [] ∧ readyWrites [Event.wOvfCounter x] = [] ∧
    sharedWrites [Event.wOvfCounter x] = [] ∧ published [Event.wOvfCounter x] = [] ∧
    transportEvents [Event.wOvfCounter x] = [] := by
  simp [adchReads, readyWrites, sharedWrites, published, transportEvents]

theorem tick_trace_mid (x v k i c : Nat) :
    adchReads [Event.wOvfCounter x, Event.wOvfCounter 0, Event.rADCH v, Event.wBuffer k i v,
      Event.wBufferCounter c] = [v] ∧
    readyWrites [Event.wOvfCounter x, Event.wOvfCounter 0, Event.rADCH v, Event.wBuffer k i v,
      Event.wBufferCounter c] = [] ∧
    sharedWrites [Event.wOvfCounter x, Event.wOvfCounter 0, Event.rADCH v, Event.wBuffer k i v,
      Event.wBufferCounter c] = [Event.wBuffer k i v] ∧
    published [Event.wOvfCounter x, Event.wOvfCounter 0, Event.rADCH v, Event.wBuffer k i v,
      Event.wBufferCounter c] = [] ∧
    transportEvents [Event.wOvfCounter x, Event.wOvfCounter 0, Event.rADCH v,
      Event.wBuffer k i v, Event.wBufferCounter c] = [] := by
  simp [adchReads, readyWrites, sharedWrites, published, transportEvents]

theorem tick_trace_last (x v k i c k1 : Nat) :
    adchReads [Event.wOvfCounter x, Event.wOvfCounter 0, Event.rADCH v, Event.wBuffer k i v,
      Event.wBufferCounter c, Event.wBufferCounter 0, Event.wReadyBuffer (k : Int),
      Event.wCurrentBuffer k1] = [v] ∧
    readyWrites [Event.wOvfCounter x, Event.wOvfCounter 0, Event.rADCH v, Event.wBuffer k i v,
      Event.wBufferCounter c, Event.wBufferCounter 0, Event.wReadyBuffer (k : Int),
      Event.wCurrentBuffer k1] = [(k : Int)] ∧
    sharedWrites [Event.wOvfCounter x, Event.wOvfCounter 0, Event.rADCH v, Event.wBuffer k i v,
      Event.wBufferCounter c, Event.wBufferCounter 0, Event.wReadyBuffer (k : Int),
      Event.wCurrentBuffer k1] = [Event.wBuffer k i v, Event.wReadyBuffer (k : Int)] ∧
    published [Event.wOvfCounter x, Event.wOvfCounter 0, Event.rADCH v, Event.wBuffer k i v,
      Event.wBufferCounter c, Event.wBufferCounter 0, Event.wReadyBuffer (k : Int),
      Event.wCurrentBuffer k1] = [(k : Int)] ∧
    transportEvents [Event.wOvfCounter x, Event.wOvfCounter 0, Event.rADCH v,
      Event.wBuffer k i v, Event.wBufferCounter c, Event.wBufferCounter 0,
      Event.wReadyBuffer (k : Int), Event.wCurrentBuffer k1] = [] := by
  have hk : ¬ ((k : Int) = -1) := by omega
  simp [adchReads, readyWrites, sharedWrites, published, transportEvents, hk]

/-- The producer while it fills one buffer. From a state in which buffer `K`
has just become active, and as long as at most `NRF_DATA_LENGTH` samples have
been read: the writes to the buffers and to the marker are the stores of the
samples into consecutive cells of row `K`, followed by the write of `K` to the
marker once the last cell is stored; the cells stored so far hold the samples;
the other row is untouched. -/
theorem fill_run (d K : Nat) (s0 : State) (hinv : Inv s0) (hcur : s0.currentBuffer = K)
    (hcnt : s0.bufferCounter = 0) :
    ∀ ticks s tr, runTicks d ticks s0 = some (s, tr) →
      (adchReads tr).length ≤ NRF_DATA_LENGTH →
      sharedWrites tr = storesFrom K 0 (adchReads tr)
        ++ (if (adchReads tr).length = NRF_DATA_LENGTH then [Event.wReadyBuffer (K : Int)]
            else []) ∧
      readyWrites tr
        = (if (adchReads tr).length = NRF_DATA_LENGTH then [(K : Int)] else []) ∧
      (∀ i, i < (adchReads tr).length → loadBuffer s.buffer K i = (adchReads tr)[i]?) ∧
      (∀ i, loadBuffer s.buffer (1 - K) i = loadBuffer s0.buffer (1 - K) i) ∧
      ((adchReads tr).length < NRF_DATA_LENGTH →
        s.currentBuffer = K ∧ s.bufferCounter = (adchReads tr).length ∧
        s.readyBuffer = s0.readyBuffer) ∧
      ((adchReads tr).length = NRF_DATA_LENGTH →
        s.currentBuffer = 1 - K ∧ s.bufferCounter = 0 ∧ s.readyBuffer = (K : Int)) := by
  have hK : K < 2 := hcur ▸ hinv.1
  intro ticks
  induction ticks using List.reverseRecOn with
  | nil =>
    intro s tr hrun _
    simp only [runTicks, Option.some.injEq, Prod.mk.injEq] at hrun
    obtain ⟨rfl, rfl⟩ := hrun
    simp [adchReads, sharedWrites, readyWrites, storesFrom, hcur, hcnt]
  | append_singleton pre v ih =>
    intro s tr hrun hlen
    obtain ⟨s1, t1, h1, hinv1⟩ := runTicks_Inv d pre s0 hinv
    rw [runTicks_append, h1] at hrun
    simp only [runTicks_singleton] at hrun
    have ih1 := ih s1 t1 h1
    rcases tick_cases d v s1 hinv1.1 hinv1.2.1 with
      ⟨_, ht⟩ | ⟨_, buf, hbuf, ⟨hlt, ht⟩ | ⟨hlast, ht⟩⟩
    · -- skipped tick
      rw [ht] at hrun
      simp only [Option.some.injEq, Prod.mk.injEq] at hrun
      obtain ⟨rfl, rfl⟩ := hrun
      obtain ⟨e1, e2, e3, _, _⟩ := tick_trace_skip ((s1.ovfCounter + 1) % 256)
      rw [adchReads_append, e1, List.append_nil] at hlen ⊢
      rw [sharedWrites_append, readyWrites_append, e2, e3, List.append_nil, List.append_nil]
      exact ih1 hlen
    · -- accepted sample, buffer not complete
      rw [ht] at hrun
      simp only [Option.some.injEq, Prod.mk.injEq] at hrun
      obtain ⟨rfl, rfl⟩ := hrun
      obtain ⟨e1, e2, e3, _, _⟩ := tick_trace_mid ((s1.ovfCounter + 1) % 256) v
        s1.currentBuffer s1.bufferCounter (s1.bufferCounter + 1)
      rw [adchReads_append, e1] at hlen ⊢
      rw [sharedWrites_append, readyWrites_append, e2, e3]
      simp only [List.length_append, List.length_singleton] at hlen ⊢
      have hr1 : (adchReads t1).length < NRF_DATA_LENGTH := by omega
      obtain ⟨i1, i2, i3, i4, i5, _⟩ := ih1 (by omega)
      obtain ⟨c1, c2, c3⟩ := i5 hr1
      have hne1 : ¬ (adchReads t1).length = NRF_DATA_LENGTH := by omega
      have hne2 : ¬ (adchReads t1).length + 1 = NRF_DATA_LENGTH := by omega
      rw [c1, c2] at hbuf
      refine ⟨?_, ?_, ?_, ?_, ?_, ?_⟩
      · rw [i1, storesFrom_append, if_neg hne1, if_neg hne2, c1, c2]
        simp [storesFrom]
      · rw [i2, if_neg hne1, if_neg hne2]
        rfl
      · intro i hi
        by_cases hi1 : i = (adchReads t1).length
        · subst hi1
          rw [List.getElem?_concat_length]
          exact loadBuffer_storeBuffer_same _ _ _ _ _ hbuf
        · have hi2 : i < (adchReads t1).length := by omega
          rw [List.getElem?_append_left hi2, ← i3 i hi2]
          exact loadBuffer_storeBuffer_other _ _ _ _ _ _ _ hbuf (Or.inr hi1)
      · intro i
        rw [← i4 i]
        exact loadBuffer_storeBuffer_other _ _ _ _ _ _ _ hbuf (Or.inl (by omega))
      · intro _
        exact ⟨c1, by show s1.bufferCounter + 1 = _; omega, c3⟩
      · intro hN
        omega
    · -- accepted sample that completes the buffer
      rw [ht] at hrun
      simp only [Option.some.injEq, Prod.mk.injEq] at hrun
      obtain ⟨rfl, rfl⟩ := hrun
      obtain ⟨e1, e2, e3, _, _⟩ := tick_trace_last ((s1.ovfCounter + 1) % 256) v
        s1.currentBuffer s1.bufferCounter NRF_DATA_LENGTH (1 - s1.currentBuffer)
      rw [adchReads_append, e1] at hlen ⊢
      rw [sharedWrites_append, readyWrites_append, e2, e3]
      simp only [List.length_append, List.length_singleton] at hlen ⊢
      have hr1 : (adchReads t1).length < NRF_DATA_LENGTH := by omega
      obtain ⟨i1, i2, i3, i4, i5, _⟩ := ih1 (by omega)
      obtain ⟨c1, c2, c3⟩ := i5 hr1
      have hne1 : ¬ (adchReads t1).length = NRF_DATA_LENGTH := by omega
      have heq2 : (adchReads t1).length + 1 = NRF_DATA_LENGTH := by omega
      rw [c1, c2] at hbuf
      refine ⟨?_, ?_, ?_, ?_, ?_, ?_⟩
      · rw [i1, storesFrom_append, if_neg hne1, if_pos heq2, c1, c2]
        simp [storesFrom]
      · rw [i2, if_neg hne1, if_pos heq2, c1]
        rfl
      · intro i hi
        by_cases hi1 : i = (adchReads t1).length
        · subst hi1
          rw [List.getElem?_concat_length]
          exact loadBuffer_storeBuffer_same _ _ _ _ _ hbuf
        · have hi2 : i < (adchReads t1).length := by omega
          rw [List.getElem?_append_left hi2, ← i3 i hi2]
          exact loadBuffer_storeBuffer_other _ _ _ _ _ _ _ hbuf (Or.inr hi1)
      · intro i
        rw [← i4 i]
        exact loadBuffer_storeBuffer_other _ _ _ _ _ _ _ hbuf (Or.inl (by omega))
      · intro hlt
        omega
      · intro _
        simp only [c1, and_self]

theorem ReachableByTicks_Inv (d : Nat) (s : State) (hreach : ReachableByTicks d s) : Inv s := by
  obtain ⟨ticks, tr, hrun⟩ := hreach
  obtain ⟨s1, t1, h1, hinv⟩ := runTicks_Inv d ticks init Inv_init
  rw [h1] at hrun
  simp only [Option.some.injEq, Prod.mk.injEq] at hrun
  rw [← hrun.1]
  exact hinv

theorem tick_reads (d v : Nat) (s s1 : State) (tr : List Event)
    (hrun : TIMER2_OVF_vect d v s = some (s1, tr)) :
    adchReads tr = [] ∨ adchReads tr = [v] := by
  unfold TIMER2_OVF_vect at hrun
  simp only at hrun
  by_cases hacc : (s.ovfCounter + 1) % 256 > d
  · rw [if_pos hacc] at hrun
    cases hst : storeBuffer s.buffer s.currentBuffer s.bufferCounter v with
    | none => simp [hst] at hrun
    | some buf =>
      simp only [hst] at hrun
      right
      split_ifs at hrun <;>
        (simp only [Option.some.injEq, Prod.mk.injEq] at hrun
         obtain ⟨_, rfl⟩ := hrun
         simp [adchReads])
  · rw [if_neg hacc] at hrun
    simp only [Option.some.injEq, Prod.mk.injEq] at hrun
    obtain ⟨_, rfl⟩ := hrun
    left
    simp [adchReads]

theorem runTicks_reads_sublist (d : Nat) (ticks : List Nat) :
    ∀ s s1 tr, runTicks d ticks s = some (s1, tr) → (adchReads tr).Sublist ticks := by
  induction ticks with
  | nil =>
    intro s s1 tr hrun
    simp only [runTicks, Option.some.injEq, Prod.mk.injEq] at hrun
    obtain ⟨_, rfl⟩ := hrun
    simp [adchReads]
  | cons v rest ih =>
    intro s s1 tr hrun
    simp only [runTicks] at hrun
    cases ht : TIMER2_OVF_vect d v s with
    | none => simp [ht] at hrun
    | some p =>
      obtain ⟨sa, ta⟩ := p
      simp only [ht] at hrun
      cases hr : runTicks d rest sa with
      | none => simp [hr] at hrun
      | some q =>
        obtain ⟨sb, tb⟩ := q
        simp only [hr, Option.some.injEq, Prod.mk.injEq] at hrun
        obtain ⟨_, rfl⟩ := hrun
        rw [adchReads_append]
        have hsub := ih sa sb tb hr
        rcases tick_reads d v s sa ta ht with h0 | h1
        · rw [h0, List.nil_append]
          exact List.Sublist.cons v hsub
        · rw [h1]
          exact List.Sublist.cons₂ v hsub

/-! ## Producer content and publication -/

/-- C1. Producer content correctness. From every state reachable by timer
ticks in which buffer `K` has just become active (`currentBuffer = K`,
`bufferCounter = 0`) and for every sequence of timer ticks, the run of the
interrupt handler returns, the samples it reads are taken in order from the
values present at the ticks, and when it has read exactly `NRF_DATA_LENGTH`
samples: the writes to the buffers and the marker are the stores of these
samples into cells `0, 1, ...` of row `K`, in the order they were read, followed
by the single write of `K` to `readyBuffer`; `readyBuffer` is `K`; and
`buffer[K][i]` is the `i`-th sample for every `i < NRF_DATA_LENGTH`. -/
theorem producer_content (s0 : State) (K : Nat) (ticks : List Nat)
    (hreach : ReachableByTicks FREQ_DEVIDER s0)
    (hcur : s0.currentBuffer = K) (hcnt : s0.bufferCounter = 0) :
    ∃ s tr, runTicks FREQ_DEVIDER ticks s0 = some (s, tr) ∧
      (adchReads tr).Sublist ticks ∧
      ((adchReads tr).length = NRF_DATA_LENGTH →
        sharedWrites tr = storesFrom K 0 (adchReads tr) ++ [Event.wReadyBuffer (K : Int)] ∧
        s.readyBuffer = (K : Int) ∧
        bufferRow s.buffer (K : Int) = some (adchReads tr) ∧
        ∀ i, i < NRF_DATA_LENGTH → loadBuffer s.buffer K i = (adchReads tr)[i]?) := by
  have hinv := ReachableByTicks_Inv _ _ hreach
  have hK : K < 2 := hcur ▸ hinv.1
  obtain ⟨s, tr, hrun, _⟩ := runTicks_Inv FREQ_DEVIDER ticks s0 hinv
  refine ⟨s, tr, hrun, runTicks_reads_sublist _ _ _ _ _ hrun, ?_⟩
  intro hN
  obtain ⟨i1, _, i3, _, _, i6⟩ := fill_run FREQ_DEVIDER K s0 hinv hcur hcnt ticks s tr hrun
    (le_of_eq hN)
  have hcells : ∀ i, i < NRF_DATA_LENGTH → loadBuffer s.buffer K i = (adchReads tr)[i]? := by
    intro i hi
    exact i3 i (by omega)
  refine ⟨?_, (i6 hN).2.2, bufferRow_eq_of_loadBuffer _ K hK _ hN hcells, hcells⟩
  rw [i1, if_pos hN]

/-- C1 on a concrete run: 352 ticks from the initial state, the ADC reading 7
at every tick; the run reads exactly `NRF_DATA_LENGTH` samples. -/
theorem producer_content_witness :
    ReachableByTicks FREQ_DEVIDER init ∧ init.currentBuffer = 0 ∧ init.bufferCounter = 0 ∧
    (runTicks FREQ_DEVIDER (List.replicate 352 7) init).map (fun p => (adchReads p.2).length)
      = some NRF_DATA_LENGTH ∧
    ∃ s tr, runTicks FREQ_DEVIDER (List.replicate 352 7) init = some (s, tr) ∧
      (adchReads tr).Sublist (List.replicate 352 7) ∧
      ((adchReads tr).length = NRF_DATA_LENGTH →
        sharedWrites tr
          = storesFrom 0 0 (adchReads tr) ++ [Event.wReadyBuffer ((0 : Nat) : Int)] ∧
        s.readyBuffer = ((0 : Nat) : Int) ∧
        bufferRow s.buffer ((0 : Nat) : Int) = some (adchReads tr) ∧
        ∀ i, i < NRF_DATA_LENGTH → loadBuffer s.buffer 0 i = (adchReads tr)[i]?) :=
  ⟨⟨[], [], rfl⟩, rfl, rfl, by decide,
    producer_content init 0 (List.replicate 352 7) ⟨[], [], rfl⟩ rfl rfl⟩

/-- C6. Exactly-once publication per buffer. From every reachable state in
which buffer `K` has just become active (`currentBuffer = K`,
`bufferCounter = 0`) and for every sequence of timer ticks, the run of the
interrupt handler returns; as long as it has read fewer than
`NRF_DATA_LENGTH` samples it has not written `readyBuffer`; once it has read
exactly `NRF_DATA_LENGTH` samples it has written `readyBuffer` exactly once,
with the value `K`, and `bufferCounter` is `0` again. Since this holds for
every run, the write is made by the tick that reads the
`NRF_DATA_LENGTH`-th sample. -/
theorem publication_exactly_once (h : NrfHeader) (s0 : State) (K : Nat) (ticks : List Nat)
    (hreach : Reachable h FREQ_DEVIDER s0)
    (hcur : s0.currentBuffer = K) (hcnt : s0.bufferCounter = 0) :
    ∃ s tr, runTicks FREQ_DEVIDER ticks s0 = some (s, tr) ∧
      ((adchReads tr).length < NRF_DATA_LENGTH → readyWrites tr = []) ∧
      ((adchReads tr).length = NRF_DATA_LENGTH →
        readyWrites tr = [(K : Int)] ∧ s.bufferCounter = 0) := by
  have hinv := Reachable_Inv _ _ _ hreach
  obtain ⟨s, tr, hrun, _⟩ := runTicks_Inv FREQ_DEVIDER ticks s0 hinv
  refine ⟨s, tr, hrun, ?_, ?_⟩
  · intro hlt
    obtain ⟨_, i2, _⟩ := fill_run FREQ_DEVIDER K s0 hinv hcur hcnt ticks s tr hrun
      (le_of_lt hlt)
    rw [i2, if_neg (by omega)]
  · intro hN
    obtain ⟨_, i2, _, _, _, i6⟩ := fill_run FREQ_DEVIDER K s0 hinv hcur hcnt ticks s tr hrun
      (le_of_eq hN)
    exact ⟨by rw [i2, if_pos hN], (i6 hN).2.1⟩

/-- C6 on concrete runs from the initial state: 351 ticks read 31 samples,
352 ticks read `NRF_DATA_LENGTH` samples. -/
theorem publication_exactly_once_witness :
    Reachable dataSheet FREQ_DEVIDER init ∧ init.currentBuffer = 0 ∧
    init.bufferCounter = 0 ∧
    (runTicks FREQ_DEVIDER (List.replicate 351 7) init).map (fun p => (adchReads p.2).length)
      = some 31 ∧
    (runTicks FREQ_DEVIDER (List.replicate 352 7) init).map (fun p => (adchReads p.2).length)
      = some NRF_DATA_LENGTH ∧
    (∃ s tr, runTicks FREQ_DEVIDER (List.replicate 351 7) init = some (s, tr) ∧
      ((adchReads tr).length < NRF_DATA_LENGTH → readyWrites tr = []) ∧
      ((adchReads tr).length = NRF_DATA_LENGTH →
        readyWrites tr = [((0 : Nat) : Int)] ∧ s.bufferCounter = 0)) ∧
    (∃ s tr, runTicks FREQ_DEVIDER (List.replicate 352 7) init = some (s, tr) ∧
      ((adchReads tr).length < NRF_DATA_LENGTH → readyWrites tr = []) ∧
      ((adchReads tr).length = NRF_DATA_LENGTH →
        readyWrites tr = [((0 : Nat) : Int)] ∧ s.bufferCounter = 0)) :=
  ⟨⟨[], [], rfl⟩, rfl, rfl, by decide, by decide,
    publication_exactly_once dataSheet init 0 (List.replicate 351 7) ⟨[], [], rfl⟩ rfl rfl,
    publication_exactly_once dataSheet init 0 (List.replicate 352 7) ⟨[], [], rfl⟩ rfl rfl⟩

/-! ## Alternation of the active index, the cursor invariant -/

theorem dataBytes_projections (bytes : List Nat) :
    adchReads (dataBytes bytes) = [] ∧ readyWrites (dataBytes bytes) = [] ∧
    sharedWrites (dataBytes bytes) = [] ∧
    transportEvents (dataBytes bytes) = dataBytes bytes := by
  induction bytes with
  | nil => simp [dataBytes, adchReads, readyWrites, sharedWrites, transportEvents]
  | cons b rest ih =>
    obtain ⟨h1, h2, h3, h4⟩ := ih
    have hcons : dataBytes (b :: rest)
        = [Event.exchange b, Event.delayUs SET_REGISTER_DELAY] ++ dataBytes rest := by
      simp [dataBytes]
    rw [hcons, adchReads_append, readyWrites_append, sharedWrites_append,
      transportEvents_append, h1, h2, h3, h4]
    simp [adchReads, readyWrites, sharedWrites, transportEvents]

/-- The trace of one iteration of the main loop that finds a buffer ready. -/
theorem poll_trace_projections (w : Nat) (data : List Nat) :
    adchReads (Event.wReadyBuffer (-1) ::
      ([Event.csnLow, Event.delayUs SET_REGISTER_DELAY, Event.exchange w,
        Event.delayUs SET_REGISTER_DELAY] ++ dataBytes data ++ [Event.csnHigh])) = [] ∧
    published (Event.wReadyBuffer (-1) ::
      ([Event.csnLow, Event.delayUs SET_REGISTER_DELAY, Event.exchange w,
        Event.delayUs SET_REGISTER_DELAY] ++ dataBytes data ++ [Event.csnHigh])) = [] ∧
    transportEvents (Event.wReadyBuffer (-1) ::
      ([Event.csnLow, Event.delayUs SET_REGISTER_DELAY, Event.exchange w,
        Event.delayUs SET_REGISTER_DELAY] ++ dataBytes data ++ [Event.csnHigh]))
      = [Event.csnLow, Event.delayUs SET_REGISTER_DELAY, Event.exchange w,
          Event.delayUs SET_REGISTER_DELAY] ++ dataBytes data ++ [Event.csnHigh] := by
  obtain ⟨h1, h2, _, h4⟩ := dataBytes_projections data
  have hsplit : Event.wReadyBuffer (-1) ::
      ([Event.csnLow, Event.delayUs SET_REGISTER_DELAY, Event.exchange w,
        Event.delayUs SET_REGISTER_DELAY] ++ dataBytes data ++ [Event.csnHigh])
      = [Event.wReadyBuffer (-1), Event.csnLow, Event.delayUs SET_REGISTER_DELAY,
          Event.exchange w, Event.delayUs SET_REGISTER_DELAY]
        ++ (dataBytes data ++ [Event.csnHigh]) := by
    simp
  rw [hsplit]
  refine ⟨?_, ?_, ?_⟩
  · rw [adchReads_append, adchReads_append, h1]
    simp [adchReads]
  · rw [published_append, published_append]
    simp only [published, h2]
    simp [readyWrites]
  · rw [transportEvents_append, transportEvents_append, h4]
    simp [transportEvents]

/-- One step from a state that satisfies the invariant: it returns, keeps the
invariant, and either publishes nothing and keeps the active index, or
publishes the active index and toggles it. -/
theorem step_published (h : NrfHeader) (d : Nat) (x : Step) (s : State) (hinv : Inv s) :
    ∃ s1 t1, step h d x s = some (s1, t1) ∧ Inv s1 ∧
      ((published t1 = [] ∧ s1.currentBuffer = s.currentBuffer) ∨
       (published t1 = [(s.currentBuffer : Int)] ∧ s1.currentBuffer = 1 - s.currentBuffer)) := by
  cases x with
  | tick v =>
    obtain ⟨s1, t1, h1, hinv1⟩ := tick_Inv d v s hinv
    refine ⟨s1, t1, h1, hinv1, ?_⟩
    rcases tick_cases d v s hinv.1 hinv.2.1 with
      ⟨_, ht⟩ | ⟨_, buf, hbuf, ⟨hlt, ht⟩ | ⟨hlast, ht⟩⟩
    all_goals
      rw [ht] at h1
      simp only [Option.some.injEq, Prod.mk.injEq] at h1
      obtain ⟨rfl, rfl⟩ := h1
    · exact Or.inl ⟨(tick_trace_skip _).2.2.2.1, rfl⟩
    · exact Or.inl ⟨(tick_trace_mid _ _ _ _ _).2.2.2.1, rfl⟩
    · exact Or.inr ⟨(tick_trace_last _ _ _ _ _ _).2.2.2.1, rfl⟩
  | poll miso =>
    obtain ⟨s1, t1, h1, hinv1⟩ := poll_Inv h miso s hinv
    refine ⟨s1, t1, h1, hinv1, Or.inl ?_⟩
    by_cases hne : s.readyBuffer = -1
    · have h2 : mainLoopBody h miso s = some (s, []) := by simp [mainLoopBody, hne]
      rw [h2] at h1
      simp only [Option.some.injEq, Prod.mk.injEq] at h1
      obtain ⟨rfl, rfl⟩ := h1
      exact ⟨by simp [published, readyWrites], rfl⟩
    · have hK : s.readyBuffer = 0 ∨ s.readyBuffer = 1 := by
        have := hinv.2.2
        omega
      have hrow : ∃ data, bufferRow s.buffer s.readyBuffer = some data := by
        rcases hK with h0 | h0 <;> simp [bufferRow, h0]
      obtain ⟨data, hrow⟩ := hrow
      rw [mainLoopBody_eq h miso s hne, sendRow_eq h miso _ _ data hrow] at h1
      simp only [Option.map_some', Option.some.injEq, Prod.mk.injEq] at h1
      obtain ⟨rfl, rfl⟩ := h1
      exact ⟨(poll_trace_projections _ _).2.1, rfl⟩

theorem alternation_run (h : NrfHeader) (d : Nat) (steps : List Step) :
    ∃ s tr, run h d steps init = some (s, tr) ∧ Inv s ∧
      published tr
        = (List.range (published tr).length).map (fun j => ((j % 2 : Nat) : Int)) ∧
      s.currentBuffer = (published tr).length % 2 := by
  induction steps using List.reverseRecOn with
  | nil => exact ⟨init, [], rfl, Inv_init, by simp [published, readyWrites], rfl⟩
  | append_singleton pre x ih =>
    obtain ⟨s, tr, hrun, hinv, hpub, hcur⟩ := ih
    obtain ⟨s1, t1, h1, hinv1, hcase⟩ := step_published h d x s hinv
    have hrun1 : run h d (pre ++ [x]) init = some (s1, tr ++ t1) := by
      rw [run_append, hrun]
      simp [run, h1]
    refine ⟨s1, tr ++ t1, hrun1, hinv1, ?_⟩
    rw [published_append]
    rcases hcase with ⟨hp, hc⟩ | ⟨hp, hc⟩
    · rw [hp, List.append_nil, hc]
      exact ⟨hpub, hcur⟩
    · rw [hp, hc, hcur]
      simp only [List.length_append, List.length_singleton, List.range_succ, List.map_append,
        List.map_singleton]
      refine ⟨by rw [← hpub], ?_⟩
      omega

/-- C7. Active-index alternation. Every run from the initial state, through
any interleaving of timer ticks and main-loop iterations, returns; the buffer
indices it publishes in `readyBuffer` are `0, 1, 0, 1, ...`; no two
consecutive publications carry the same index; and in the state it ends in,
a tick either does not write `readyBuffer` and leaves `currentBuffer` as it
is, or completes the buffer, publishes the old `currentBuffer` and sets
`currentBuffer` to one minus its old value. -/
theorem active_index_alternation (h : NrfHeader) (steps : List Step) :
    ∃ s tr, run h FREQ_DEVIDER steps init = some (s, tr) ∧
      published tr
        = (List.range (published tr).length).map (fun j => ((j % 2 : Nat) : Int)) ∧
      (∀ j a b, (published tr)[j]? = some a → (published tr)[j + 1]? = some b → a ≠ b) ∧
      (∀ v, ∃ s1 t1, TIMER2_OVF_vect FREQ_DEVIDER v s = some (s1, t1) ∧
        ((readyWrites t1 = [] ∧ s1.currentBuffer = s.currentBuffer) ∨
         (readyWrites t1 = [(s.currentBuffer : Int)] ∧
          s1.currentBuffer = 1 - s.currentBuffer))) := by
  obtain ⟨s, tr, hrun, hinv, hpub, _⟩ := alternation_run h FREQ_DEVIDER steps
  refine ⟨s, tr, hrun, hpub, ?_, ?_⟩
  · intro j a b ha hb
    rw [hpub] at ha hb
    simp only [List.getElem?_map, List.getElem?_range, Option.map_eq_some'] at ha hb
    obtain ⟨x, hx, rfl⟩ := ha
    obtain ⟨y, hy, rfl⟩ := hb
    obtain ⟨_, hx1⟩ := List.getElem?_eq_some_iff.mp hx
    obtain ⟨_, hy1⟩ := List.getElem?_eq_some_iff.mp hy
    rw [List.getElem_range] at hx1 hy1
    subst hx1
    subst hy1
    omega
  · intro v
    rcases tick_cases FREQ_DEVIDER v s hinv.1 hinv.2.1 with
      ⟨_, ht⟩ | ⟨_, buf, hbuf, ⟨hlt, ht⟩ | ⟨hlast, ht⟩⟩
    · exact ⟨_, _, ht, Or.inl ⟨(tick_trace_skip _).2.1, rfl⟩⟩
    · exact ⟨_, _, ht, Or.inl ⟨(tick_trace_mid _ _ _ _ _).2.1, rfl⟩⟩
    · exact ⟨_, _, ht, Or.inr ⟨(tick_trace_last _ _ _ _ _ _).2.1, rfl⟩⟩

/-- C8. Cursor invariant. In every state reachable from the initial state by
an interleaving of timer ticks and main-loop iterations, `bufferCounter` is
below `NRF_DATA_LENGTH`; and a tick from such a state returns, leaves
`bufferCounter` below `NRF_DATA_LENGTH`, and writes `0` to `bufferCounter`
if and only if it completes the active buffer, that is, if and only if it
stores the last cell of the active row, which is also if and only if it
publishes the active index in `readyBuffer`. -/
theorem cursor_invariant (h : NrfHeader) (s : State) (hreach : Reachable h FREQ_DEVIDER s) :
    0 ≤ s.bufferCounter ∧ s.bufferCounter < NRF_DATA_LENGTH ∧
    ∀ v, ∃ s1 t1, TIMER2_OVF_vect FREQ_DEVIDER v s = some (s1, t1) ∧
      s1.bufferCounter < NRF_DATA_LENGTH ∧
      (Event.wBufferCounter 0 ∈ t1
        ↔ Event.wBuffer s.currentBuffer (NRF_DATA_LENGTH - 1) v ∈ t1) ∧
      (Event.wBufferCounter 0 ∈ t1 ↔ Event.wReadyBuffer (s.currentBuffer : Int) ∈ t1) := by
  have hinv := Reachable_Inv _ _ _ hreach
  refine ⟨Nat.zero_le _, hinv.2.1, ?_⟩
  intro v
  have hcnt : s.bufferCounter < 32 := hinv.2.1
  rcases tick_cases FREQ_DEVIDER v s hinv.1 hinv.2.1 with
    ⟨_, ht⟩ | ⟨_, buf, hbuf, ⟨hlt, ht⟩ | ⟨hlast, ht⟩⟩
  · refine ⟨_, _, ht, hinv.2.1, ?_, ?_⟩ <;> simp
  · have hlt1 : s.bufferCounter + 1 < 32 := hlt
    have hne : ¬ s.bufferCounter = 31 := by omega
    have hne1 : ¬ 31 = s.bufferCounter := by omega
    refine ⟨_, _, ht, hlt, ?_, ?_⟩ <;> simp [hne, hne1]
  · have hlast1 : s.bufferCounter + 1 = 32 := hlast
    have heq : s.bufferCounter = 31 := by omega
    refine ⟨_, _, ht, by show 0 < 32; omega, ?_, ?_⟩ <;> simp [heq]

/-- C8 at the state reached after 351 ticks: the cursor is at 31 and the next
tick accepts a sample, stores the last cell of the active row, writes 0 to
`bufferCounter` and publishes the buffer. -/
theorem cursor_invariant_witness :
    ∃ s tr, run dataSheet FREQ_DEVIDER ((List.replicate 351 7).map Step.tick) init
        = some (s, tr) ∧
      s.bufferCounter = 31 ∧ s.ovfCounter = 10 ∧ Reachable dataSheet FREQ_DEVIDER s ∧
      (∃ s1 t1, TIMER2_OVF_vect FREQ_DEVIDER 7 s = some (s1, t1) ∧
        Event.wBufferCounter 0 ∈ t1 ∧
        Event.wBuffer s.currentBuffer (NRF_DATA_LENGTH - 1) 7 ∈ t1 ∧
        Event.wReadyBuffer (s.currentBuffer : Int) ∈ t1 ∧ s1.bufferCounter = 0) ∧
      (0 ≤ s.bufferCounter ∧ s.bufferCounter < NRF_DATA_LENGTH ∧
      ∀ v, ∃ s1 t1, TIMER2_OVF_vect FREQ_DEVIDER v s = some (s1, t1) ∧
        s1.bufferCounter < NRF_DATA_LENGTH ∧
        (Event.wBufferCounter 0 ∈ t1
          ↔ Event.wBuffer s.currentBuffer (NRF_DATA_LENGTH - 1) v ∈ t1) ∧
        (Event.wBufferCounter 0 ∈ t1 ↔ Event.wReadyBuffer (s.currentBuffer : Int) ∈ t1)) := by
  obtain ⟨s, tr, hrun, hinv⟩ :=
    run_Inv dataSheet FREQ_DEVIDER ((List.replicate 351 7).map Step.tick) init Inv_init
  have hfields : (run dataSheet FREQ_DEVIDER ((List.replicate 351 7).map Step.tick) init).map
      (fun p => (p.1.bufferCounter, p.1.ovfCounter)) = some (31, 10) := by decide
  rw [hrun] at hfields
  simp only [Option.map_some', Option.some.injEq, Prod.mk.injEq] at hfields
  obtain ⟨hc, ho⟩ := hfields
  have htick : ∃ s1 t1, TIMER2_OVF_vect FREQ_DEVIDER 7 s = some (s1, t1) ∧
      Event.wBufferCounter 0 ∈ t1 ∧
      Event.wBuffer s.currentBuffer (NRF_DATA_LENGTH - 1) 7 ∈ t1 ∧
      Event.wReadyBuffer (s.currentBuffer : Int) ∈ t1 ∧ s1.bufferCounter = 0 := by
    rcases tick_cases FREQ_DEVIDER 7 s hinv.1 hinv.2.1 with
      ⟨hskip, _⟩ | ⟨_, buf, hbuf, ⟨hlt, _⟩ | ⟨_, ht⟩⟩
    · rw [ho] at hskip
      exact absurd (by decide) hskip
    · rw [hc] at hlt
      exact absurd hlt (by decide)
    · exact ⟨_, _, ht, by simp, by simp [hc], by simp, rfl⟩
  exact ⟨s, tr, hrun, hc, ho, ⟨_, _, hrun⟩, htick,
    cursor_invariant dataSheet s ⟨_, _, hrun⟩⟩

/-! ## The rate divider -/

/-- The divider over a run that starts with `ovfCounter = 0`, for a divisor
`d < 255`: the number of ticks is `(d + 1)` times the number of samples read
plus the value of `ovfCounter`, which is at most `d`; and the `j`-th sample is
the value of `ADCH` at tick `(d + 1) * j + d` (counting from 0). -/
theorem divider_run (d : Nat) (hd : d < 255) (s0 : State) (hinv : Inv s0)
    (hovf : s0.ovfCounter = 0) :
    ∀ ticks s tr, runTicks d ticks s0 = some (s, tr) →
      ticks.length = (d + 1) * (adchReads tr).length + s.ovfCounter ∧ s.ovfCounter ≤ d ∧
      (∀ j, j < (adchReads tr).length → (adchReads tr)[j]? = ticks[(d + 1) * j + d]?) := by
  intro ticks
  induction ticks using List.reverseRecOn with
  | nil =>
    intro s tr hrun
    simp only [runTicks, Option.some.injEq, Prod.mk.injEq] at hrun
    obtain ⟨rfl, rfl⟩ := hrun
    simp [adchReads, hovf]
  | append_singleton pre v ih =>
    intro s tr hrun
    obtain ⟨s1, t1, h1, hinv1⟩ := runTicks_Inv d pre s0 hinv
    rw [runTicks_append, h1] at hrun
    simp only [runTicks_singleton] at hrun
    obtain ⟨ilen, iovf, ipos⟩ := ih s1 t1 h1
    have hold : ∀ j, j < (adchReads t1).length →
        (adchReads t1)[j]? = (pre ++ [v])[(d + 1) * j + d]? := by
      intro j hj
      have hmul : (d + 1) * (j + 1) ≤ (d + 1) * (adchReads t1).length :=
        Nat.mul_le_mul_left _ hj
      rw [Nat.mul_succ] at hmul
      rw [List.getElem?_append_left (by omega)]
      exact ipos j hj
    have hmod : (s1.ovfCounter + 1) % 256 = s1.ovfCounter + 1 :=
      Nat.mod_eq_of_lt (by omega)
    have hacc : ∀ t2 : List Event, adchReads t2 = [v] → (s1.ovfCounter + 1) % 256 > d →
        (pre ++ [v]).length = (d + 1) * (adchReads (t1 ++ t2)).length + 0 ∧ 0 ≤ d ∧
        (∀ j, j < (adchReads (t1 ++ t2)).length →
          (adchReads (t1 ++ t2))[j]? = (pre ++ [v])[(d + 1) * j + d]?) := by
      intro t2 e1 hgt
      rw [hmod] at hgt
      have hd1 : s1.ovfCounter = d := by omega
      rw [adchReads_append, e1]
      simp only [List.length_append, List.length_singleton]
      refine ⟨?_, Nat.zero_le _, ?_⟩
      · rw [Nat.mul_succ]
        omega
      · intro j hj
        by_cases hj1 : j = (adchReads t1).length
        · subst hj1
          have hidx : (d + 1) * (adchReads t1).length + d = pre.length := by omega
          rw [List.getElem?_concat_length, hidx, List.getElem?_concat_length]
        · have hj2 : j < (adchReads t1).length := by omega
          rw [List.getElem?_append_left hj2]
          exact hold j hj2
    rcases tick_cases d v s1 hinv1.1 hinv1.2.1 with
      ⟨hskip, ht⟩ | ⟨hgt, buf, hbuf, ⟨hlt, ht⟩ | ⟨hlast, ht⟩⟩
    · rw [ht] at hrun
      simp only [Option.some.injEq, Prod.mk.injEq] at hrun
      obtain ⟨rfl, rfl⟩ := hrun
      rw [adchReads_append, (tick_trace_skip _).1, List.append_nil]
      rw [hmod] at hskip
      simp only [List.length_append, List.length_singleton, hmod]
      exact ⟨by omega, by omega, hold⟩
    · rw [ht] at hrun
      simp only [Option.some.injEq, Prod.mk.injEq] at hrun
      obtain ⟨rfl, rfl⟩ := hrun
      exact hacc _ (tick_trace_mid _ _ _ _ _).1 hgt
    · rw [ht] at hrun
      simp only [Option.some.injEq, Prod.mk.injEq] at hrun
      obtain ⟨rfl, rfl⟩ := hrun
      exact hacc _ (tick_trace_last _ _ _ _ _ _).1 hgt

/-- The cursor over a run that starts with `bufferCounter = 0`: the number of
samples read is `NRF_DATA_LENGTH` times the number of writes to `readyBuffer`
plus the value of `bufferCounter`, which is below `NRF_DATA_LENGTH`. -/
theorem cursor_run (d : Nat) (s0 : State) (hinv : Inv s0) (hcnt : s0.bufferCounter = 0) :
    ∀ ticks s tr, runTicks d ticks s0 = some (s, tr) →
      (adchReads tr).length = NRF_DATA_LENGTH * (readyWrites tr).length + s.bufferCounter ∧
      s.bufferCounter < NRF_DATA_LENGTH := by
  intro ticks
  induction ticks using List.reverseRecOn with
  | nil =>
    intro s tr hrun
    simp only [runTicks, Option.some.injEq, Prod.mk.injEq] at hrun
    obtain ⟨rfl, rfl⟩ := hrun
    simp [adchReads, readyWrites, hcnt]
  | append_singleton pre v ih =>
    intro s tr hrun
    obtain ⟨s1, t1, h1, hinv1⟩ := runTicks_Inv d pre s0 hinv
    rw [runTicks_append, h1] at hrun
    simp only [runTicks_singleton] at hrun
    obtain ⟨ilen, icnt⟩ := ih s1 t1 h1
    rcases tick_cases d v s1 hinv1.1 hinv1.2.1 with
      ⟨hskip, ht⟩ | ⟨hgt, buf, hbuf, ⟨hlt, ht⟩ | ⟨hlast, ht⟩⟩
    · rw [ht] at hrun
      simp only [Option.some.injEq, Prod.mk.injEq] at hrun
      obtain ⟨rfl, rfl⟩ := hrun
      rw [adchReads_append, readyWrites_append, (tick_trace_skip _).1, (tick_trace_skip _).2.1,
        List.append_nil, List.append_nil]
      exact ⟨ilen, icnt⟩
    · rw [ht] at hrun
      simp only [Option.some.injEq, Prod.mk.injEq] at hrun
      obtain ⟨rfl, rfl⟩ := hrun
      rw [adchReads_append, readyWrites_append, (tick_trace_mid _ _ _ _ _).1,
        (tick_trace_mid _ _ _ _ _).2.1, List.append_nil]
      simp only [List.length_append, List.length_singleton]
      exact ⟨by omega, hlt⟩
    · rw [ht] at hrun
      simp only [Option.some.injEq, Prod.mk.injEq] at hrun
      obtain ⟨rfl, rfl⟩ := hrun
      rw [adchReads_append, readyWrites_append, (tick_trace_last _ _ _ _ _ _).1,
        (tick_trace_last _ _ _ _ _ _).2.1]
      simp only [List.length_append, List.length_singleton]
      have hlast1 : s1.bufferCounter + 1 = 32 := hlast
      have ilen1 : (adchReads t1).length = 32 * (readyWrites t1).length + s1.bufferCounter :=
        ilen
      refine ⟨?_, by show 0 < 32; omega⟩
      show (adchReads t1).length + 1 = 32 * ((readyWrites t1).length + 1) + 0
      omega

/-- C9. Down-sampling ratio. From every reachable state with `ovfCounter = 0`
and for every sequence of `T` timer ticks, the run returns and has read
exactly `T / (FREQ_DEVIDER + 1)` samples, and the next tick, the `(T+1)`-th,
reads a sample if and only if `FREQ_DEVIDER + 1` divides `T + 1`. When
moreover `bufferCounter = 0` at the start, the run has published
`T / (NRF_DATA_LENGTH * (FREQ_DEVIDER + 1))` buffers and the `(T+1)`-th tick
publishes one if and only if `NRF_DATA_LENGTH * (FREQ_DEVIDER + 1)` divides
`T + 1`. -/
theorem downsampling_ratio (h : NrfHeader) (s0 : State) (ticks : List Nat)
    (hreach : Reachable h FREQ_DEVIDER s0) (hovf : s0.ovfCounter = 0) :
    ∃ s tr, runTicks FREQ_DEVIDER ticks s0 = some (s, tr) ∧
      (adchReads tr).length = ticks.length / (FREQ_DEVIDER + 1) ∧
      (∀ v, ∃ s1 t1, TIMER2_OVF_vect FREQ_DEVIDER v s = some (s1, t1) ∧
        adchReads t1 = if (FREQ_DEVIDER + 1) ∣ (ticks.length + 1) then [v] else []) ∧
      (s0.bufferCounter = 0 →
        (readyWrites tr).length = ticks.length / (NRF_DATA_LENGTH * (FREQ_DEVIDER + 1)) ∧
        ∀ v, ∃ s1 t1, TIMER2_OVF_vect FREQ_DEVIDER v s = some (s1, t1) ∧
          readyWrites t1
            = if (NRF_DATA_LENGTH * (FREQ_DEVIDER + 1)) ∣ (ticks.length + 1)
              then [(s.currentBuffer : Int)] else []) := by
  have hinv := Reachable_Inv _ _ _ hreach
  obtain ⟨s, tr, hrun, hinv1⟩ := runTicks_Inv FREQ_DEVIDER ticks s0 hinv
  obtain ⟨hlen, hle, _⟩ := divider_run 10 (by omega) s0 hinv hovf ticks s tr hrun
  have e1 : FREQ_DEVIDER + 1 = 11 := rfl
  have e2 : NRF_DATA_LENGTH * (FREQ_DEVIDER + 1) = 352 := rfl
  have e3 : FREQ_DEVIDER = 10 := rfl
  rw [e1, e2]
  have hmod : (s.ovfCounter + 1) % 256 = s.ovfCounter + 1 := Nat.mod_eq_of_lt (by omega)
  refine ⟨s, tr, hrun, by omega, ?_, ?_⟩
  · intro v
    rcases tick_cases FREQ_DEVIDER v s hinv1.1 hinv1.2.1 with
      ⟨hskip, ht⟩ | ⟨hgt, buf, hbuf, ⟨hlt, ht⟩ | ⟨hlast, ht⟩⟩
    · rw [hmod, e3] at hskip
      refine ⟨_, _, ht, ?_⟩
      rw [(tick_trace_skip _).1, if_neg (by omega)]
    · rw [hmod, e3] at hgt
      refine ⟨_, _, ht, ?_⟩
      rw [(tick_trace_mid _ _ _ _ _).1, if_pos (by omega)]
    · rw [hmod, e3] at hgt
      refine ⟨_, _, ht, ?_⟩
      rw [(tick_trace_last _ _ _ _ _ _).1, if_pos (by omega)]
  · intro hcnt
    obtain ⟨hreads, hcur⟩ := cursor_run FREQ_DEVIDER s0 hinv hcnt ticks s tr hrun
    have hreads1 : (adchReads tr).length = 32 * (readyWrites tr).length + s.bufferCounter :=
      hreads
    have hcur1 : s.bufferCounter < 32 := hcur
    refine ⟨by omega, ?_⟩
    intro v
    rcases tick_cases FREQ_DEVIDER v s hinv1.1 hinv1.2.1 with
      ⟨hskip, ht⟩ | ⟨hgt, buf, hbuf, ⟨hlt, ht⟩ | ⟨hlast, ht⟩⟩
    · rw [hmod, e3] at hskip
      refine ⟨_, _, ht, ?_⟩
      rw [(tick_trace_skip _).2.1, if_neg (by omega)]
    · rw [hmod, e3] at hgt
      have hlt1 : s.bufferCounter + 1 < 32 := hlt
      refine ⟨_, _, ht, ?_⟩
      rw [(tick_trace_mid _ _ _ _ _).2.1, if_neg (by omega)]
    · rw [hmod, e3] at hgt
      have hlast1 : s.bufferCounter + 1 = 32 := hlast
      refine ⟨_, _, ht, ?_⟩
      rw [(tick_trace_last _ _ _ _ _ _).2.1, if_pos (by omega)]

/-- C9 on a concrete run: 703 ticks from the initial state. -/
theorem downsampling_ratio_witness :
    Reachable dataSheet FREQ_DEVIDER init ∧ init.ovfCounter = 0 ∧
    ∃ s tr, runTicks FREQ_DEVIDER (List.replicate 703 7) init = some (s, tr) ∧
      (adchReads tr).length = (List.replicate 703 7).length / (FREQ_DEVIDER + 1) ∧
      (∀ v, ∃ s1 t1, TIMER2_OVF_vect FREQ_DEVIDER v s = some (s1, t1) ∧
        adchReads t1
          = if (FREQ_DEVIDER + 1) ∣ ((List.replicate 703 7).length + 1) then [v] else []) ∧
      (init.bufferCounter = 0 →
        (readyWrites tr).length
          = (List.replicate 703 7).length / (NRF_DATA_LENGTH * (FREQ_DEVIDER + 1)) ∧
        ∀ v, ∃ s1 t1, TIMER2_OVF_vect FREQ_DEVIDER v s = some (s1, t1) ∧
          readyWrites t1
            = if (NRF_DATA_LENGTH * (FREQ_DEVIDER + 1)) ∣ ((List.replicate 703 7).length + 1)
              then [(s.currentBuffer : Int)] else []) :=
  ⟨⟨[], [], rfl⟩, rfl,
    downsampling_ratio dataSheet init (List.replicate 703 7) ⟨[], [], rfl⟩ rfl⟩

/-! ## Scenario A -/

/-- C5. Scenario A, for the interrupt handler with the divider constant set
to 9 (and `NRF_DATA_LENGTH = 32`): for every sequence of at least 320
per-tick sample values, started in the initial state, the run of the first
`n` ticks returns for every `n < 320` with `readyBuffer` still `-1` and no
write to it; the run of the first 320 ticks returns with `readyBuffer = 0`,
written once, and cell `i` of buffer 0 holds the sample presented at tick
`10 * i + 9` (counting ticks from 0), for every `i < 32`. -/
theorem scenario_A (ticks : List Nat) (hlen : 320 ≤ ticks.length) :
    (∀ n, n < 320 →
      ∃ s tr, runTicks 9 (ticks.take n) init = some (s, tr) ∧
        s.readyBuffer = -1 ∧ readyWrites tr = []) ∧
    (∃ s tr, runTicks 9 (ticks.take 320) init = some (s, tr) ∧
      s.readyBuffer = 0 ∧ readyWrites tr = [0] ∧
      (adchReads tr).length = NRF_DATA_LENGTH ∧
      bufferRow s.buffer 0 = some (adchReads tr) ∧
      ∀ i, i < NRF_DATA_LENGTH → loadBuffer s.buffer 0 i = ticks[10 * i + 9]?) := by
  constructor
  · intro n hn
    obtain ⟨s, tr, hrun, _⟩ := runTicks_Inv 9 (ticks.take n) init Inv_init
    obtain ⟨hdiv, hle, _⟩ := divider_run 9 (by omega) init Inv_init rfl _ s tr hrun
    have hlt : (adchReads tr).length < NRF_DATA_LENGTH := by
      rw [List.length_take] at hdiv
      show (adchReads tr).length < 32
      omega
    obtain ⟨_, i2, _, _, i5, _⟩ := fill_run 9 0 init Inv_init rfl rfl _ s tr hrun (le_of_lt hlt)
    refine ⟨s, tr, hrun, ?_, ?_⟩
    · rw [(i5 hlt).2.2]
      rfl
    · rw [i2, if_neg (by omega)]
  · obtain ⟨s, tr, hrun, _⟩ := runTicks_Inv 9 (ticks.take 320) init Inv_init
    obtain ⟨hdiv, hle, hpos⟩ := divider_run 9 (by omega) init Inv_init rfl _ s tr hrun
    have hN : (adchReads tr).length = NRF_DATA_LENGTH := by
      rw [List.length_take] at hdiv
      show (adchReads tr).length = 32
      omega
    obtain ⟨_, i2, i3, _, _, i6⟩ := fill_run 9 0 init Inv_init rfl rfl _ s tr hrun (le_of_eq hN)
    have hcells : ∀ i, i < NRF_DATA_LENGTH → loadBuffer s.buffer 0 i = (adchReads tr)[i]? := by
      intro i hi
      exact i3 i (by omega)
    refine ⟨s, tr, hrun, ?_, ?_, hN, ?_, ?_⟩
    · rw [(i6 hN).2.2]
      rfl
    · rw [i2, if_pos hN]
      rfl
    · exact bufferRow_eq_of_loadBuffer _ 0 (by omega) _ hN hcells
    · intro i hi
      have hi1 : i < 32 := hi
      rw [hcells i hi, hpos i (by omega), List.getElem?_take_of_lt (by omega)]

/-- C5 on a concrete input: 400 ticks, tick `t` presents the sample
`t mod 256`. -/
theorem scenario_A_witness :
    320 ≤ ((List.range 400).map (fun t => t % 256)).length ∧
    (∀ n, n < 320 →
      ∃ s tr, runTicks 9 (((List.range 400).map (fun t => t % 256)).take n) init
          = some (s, tr) ∧
        s.readyBuffer = -1 ∧ readyWrites tr = []) ∧
    (∃ s tr, runTicks 9 (((List.range 400).map (fun t => t % 256)).take 320) init
        = some (s, tr) ∧
      s.readyBuffer = 0 ∧ readyWrites tr = [0] ∧
      (adchReads tr).length = NRF_DATA_LENGTH ∧
      bufferRow s.buffer 0 = some (adchReads tr) ∧
      ∀ i, i < NRF_DATA_LENGTH →
        loadBuffer s.buffer 0 i = ((List.range 400).map (fun t => t % 256))[10 * i + 9]?) :=
  ⟨by simp, scenario_A ((List.range 400).map (fun t => t % 256)) (by simp)⟩

/-! ## Publication overwrite (Scenario C) -/

/-- One step from a state with no buffer pending: unless the step publishes
a buffer, it produces no transport event and leaves no buffer pending. -/
theorem step_quiet (h : NrfHeader) (d : Nat) (x : Step) (s : State) (hinv : Inv s)
    (hready : s.readyBuffer = -1) :
    ∃ s1 t1, step h d x s = some (s1, t1) ∧ Inv s1 ∧
      (published t1 = [] → transportEvents t1 = [] ∧ s1.readyBuffer = -1) := by
  cases x with
  | tick v =>
    rcases tick_cases d v s hinv.1 hinv.2.1 with
      ⟨_, ht⟩ | ⟨_, buf, hbuf, ⟨hlt, ht⟩ | ⟨hlast, ht⟩⟩
    · obtain ⟨s1, t1, h1, hinv1⟩ := tick_Inv d v s hinv
      rw [ht] at h1
      simp only [Option.some.injEq, Prod.mk.injEq] at h1
      obtain ⟨rfl, rfl⟩ := h1
      exact ⟨_, _, ht, hinv1, fun _ => ⟨(tick_trace_skip _).2.2.2.2, hready⟩⟩
    · obtain ⟨s1, t1, h1, hinv1⟩ := tick_Inv d v s hinv
      rw [ht] at h1
      simp only [Option.some.injEq, Prod.mk.injEq] at h1
      obtain ⟨rfl, rfl⟩ := h1
      exact ⟨_, _, ht, hinv1, fun _ => ⟨(tick_trace_mid _ _ _ _ _).2.2.2.2, hready⟩⟩
    · obtain ⟨s1, t1, h1, hinv1⟩ := tick_Inv d v s hinv
      rw [ht] at h1
      simp only [Option.some.injEq, Prod.mk.injEq] at h1
      obtain ⟨rfl, rfl⟩ := h1
      refine ⟨_, _, ht, hinv1, ?_⟩
      intro hp
      rw [(tick_trace_last _ _ _ _ _ _).2.2.2.1] at hp
      simp at hp
  | poll miso =>
    refine ⟨s, [], ?_, hinv, fun _ => ⟨by simp [transportEvents], hready⟩⟩
    simp [step, mainLoopBody, hready]

/-- A run from a state with no buffer pending: unless it publishes a buffer,
it produces no transport event. -/
theorem run_quiet (h : NrfHeader) (d : Nat) (steps : List Step) :
    ∀ s, Inv s → s.readyBuffer = -1 →
      ∃ s1 tr, run h d steps s = some (s1, tr) ∧
        (published tr = [] → transportEvents tr = [] ∧ s1.readyBuffer = -1) := by
  induction steps with
  | nil =>
    intro s _ hready
    exact ⟨s, [], rfl, fun _ => ⟨by simp [transportEvents], hready⟩⟩
  | cons x rest ih =>
    intro s hinv hready
    obtain ⟨s1, t1, h1, hinv1, hq1⟩ := step_quiet h d x s hinv hready
    by_cases hp1 : published t1 = []
    · obtain ⟨ht1, hr1⟩ := hq1 hp1
      obtain ⟨s2, t2, h2, hq2⟩ := ih s1 hinv1 hr1
      refine ⟨s2, t1 ++ t2, by simp only [run, h1, h2], ?_⟩
      intro hp
      rw [published_append, hp1, List.nil_append] at hp
      rw [transportEvents_append, ht1, List.nil_append]
      exact hq2 hp
    · obtain ⟨s2, t2, h2, _⟩ := run_Inv h d rest s1 hinv1
      refine ⟨s2, t1 ++ t2, by simp only [run, h1, h2], ?_⟩
      intro hp
      rw [published_append] at hp
      exact absurd (List.append_eq_nil.mp hp).1 hp1

/-- C10. Publication overwrite (Scenario C). From a reachable state in which
buffer 0 has just become active, let the interrupt handler run over ticks
`ticksA` and then over ticks `ticksB` with no main-loop iteration in between;
both runs return. If the first run reads exactly `NRF_DATA_LENGTH` samples
(it completes buffer 0) and the second one too (it completes buffer 1), then
after the first run `readyBuffer = 0` and buffer 0 holds the samples of the
first run; after the second run `readyBuffer = 1`, the writes to
`readyBuffer` were `0` then `1`, buffer 1 holds the samples of the second
run and buffer 0 still those of the first. A run that starts there with a
main-loop iteration, followed by any steps, returns, and as long as no
further buffer is published its transport events are exactly one Send, of
the samples of the second run; no buffer is pending at its end. -/
theorem publication_overwrite (h : NrfHeader) (s0 : State) (ticksA ticksB : List Nat)
    (hreach : Reachable h FREQ_DEVIDER s0)
    (hcur : s0.currentBuffer = 0) (hcnt : s0.bufferCounter = 0) :
    ∃ sA trA, runTicks FREQ_DEVIDER ticksA s0 = some (sA, trA) ∧
    ∃ sB trB, runTicks FREQ_DEVIDER ticksB sA = some (sB, trB) ∧
      ((adchReads trA).length = NRF_DATA_LENGTH → (adchReads trB).length = NRF_DATA_LENGTH →
        sA.readyBuffer = 0 ∧ bufferRow sA.buffer 0 = some (adchReads trA) ∧
        readyWrites (trA ++ trB) = [0, 1] ∧ sB.readyBuffer = 1 ∧
        bufferRow sB.buffer 1 = some (adchReads trB) ∧
        bufferRow sB.buffer 0 = some (adchReads trA) ∧
        ∀ miso steps, ∃ sC trC,
          run h FREQ_DEVIDER (Step.poll miso :: steps) sB = some (sC, trC) ∧
          (published trC = [] →
            transportEvents trC
              = [Event.csnLow, Event.delayUs SET_REGISTER_DELAY,
                  Event.exchange h.W_TX_PAYLOAD, Event.delayUs SET_REGISTER_DELAY]
                ++ dataBytes (adchReads trB) ++ [Event.csnHigh] ∧
            sC.readyBuffer = -1)) := by
  have hinv := Reachable_Inv _ _ _ hreach
  obtain ⟨sA, trA, hrunA, hinvA⟩ := runTicks_Inv FREQ_DEVIDER ticksA s0 hinv
  obtain ⟨sB, trB, hrunB, hinvB⟩ := runTicks_Inv FREQ_DEVIDER ticksB sA hinvA
  refine ⟨sA, trA, hrunA, sB, trB, hrunB, ?_⟩
  intro hA hB
  obtain ⟨_, a2, a3, _, _, a6⟩ := fill_run FREQ_DEVIDER 0 s0 hinv hcur hcnt ticksA sA trA hrunA
    (le_of_eq hA)
  obtain ⟨acur, acnt, aready⟩ := a6 hA
  obtain ⟨_, b2, b3, b4, _, b6⟩ := fill_run FREQ_DEVIDER 1 sA hinvA acur acnt ticksB sB trB hrunB
    (le_of_eq hB)
  obtain ⟨bcur, bcnt, bready⟩ := b6 hB
  have hcellsA : ∀ i, i < NRF_DATA_LENGTH → loadBuffer sA.buffer 0 i = (adchReads trA)[i]? := by
    intro i hi
    exact a3 i (by omega)
  have hcellsB : ∀ i, i < NRF_DATA_LENGTH → loadBuffer sB.buffer 1 i = (adchReads trB)[i]? := by
    intro i hi
    exact b3 i (by omega)
  have hcellsA1 : ∀ i, i < NRF_DATA_LENGTH →
      loadBuffer sB.buffer 0 i = (adchReads trA)[i]? := by
    intro i hi
    rw [← hcellsA i hi]
    exact b4 i
  have hrowB : bufferRow sB.buffer 1 = some (adchReads trB) :=
    bufferRow_eq_of_loadBuffer _ 1 (by omega) _ hB hcellsB
  refine ⟨aready, bufferRow_eq_of_loadBuffer _ 0 (by omega) _ hA hcellsA, ?_, bready, hrowB,
    bufferRow_eq_of_loadBuffer _ 0 (by omega) _ hA hcellsA1, ?_⟩
  · rw [readyWrites_append, a2, b2, if_pos hA, if_pos hB]
    rfl
  · intro miso steps
    have hne : sB.readyBuffer ≠ -1 := by
      rw [bready]
      omega
    have hrowB1 : bufferRow sB.buffer sB.readyBuffer = some (adchReads trB) := by
      rw [bready]
      exact hrowB
    have hpoll : step h FREQ_DEVIDER (Step.poll miso) sB
        = some ({ sB with readyBuffer := -1 },
            Event.wReadyBuffer (-1) ::
              ([Event.csnLow, Event.delayUs SET_REGISTER_DELAY,
                 Event.exchange h.W_TX_PAYLOAD, Event.delayUs SET_REGISTER_DELAY]
               ++ dataBytes (adchReads trB) ++ [Event.csnHigh])) := by
      show mainLoopBody h miso sB = _
      rw [mainLoopBody_eq h miso sB hne, sendRow_eq h miso _ _ _ hrowB1]
      rfl
    have hinvC : Inv { sB with readyBuffer := -1 } := ⟨hinvB.1, hinvB.2.1, Or.inl rfl⟩
    obtain ⟨sC, trC, hrunC, hq⟩ := run_quiet h FREQ_DEVIDER steps _ hinvC rfl
    refine ⟨sC,
      (Event.wReadyBuffer (-1) ::
        ([Event.csnLow, Event.delayUs SET_REGISTER_DELAY,
           Event.exchange h.W_TX_PAYLOAD, Event.delayUs SET_REGISTER_DELAY]
         ++ dataBytes (adchReads trB) ++ [Event.csnHigh])) ++ trC,
      by simp only [run, hpoll, hrunC], ?_⟩
    intro hp
    obtain ⟨_, p2, p3⟩ := poll_trace_projections h.W_TX_PAYLOAD (adchReads trB)
    rw [published_append, p2, List.nil_append] at hp
    rw [transportEvents_append, p3, (hq hp).1, List.append_nil]
    exact ⟨rfl, (hq hp).2⟩

/-- C10 on a concrete run from the initial state: 352 ticks with the ADC
reading 7 complete buffer 0, 352 more ticks with the ADC reading 9 complete
buffer 1, then the main loop runs twice; the whole run reads 64 samples and
the only bytes sent are the command byte and 32 times the byte 9. -/
theorem publication_overwrite_witness :
    Reachable dataSheet FREQ_DEVIDER init ∧ init.currentBuffer = 0 ∧
    init.bufferCounter = 0 ∧
    (runTicks FREQ_DEVIDER (List.replicate 352 7) init).map (fun p => (adchReads p.2).length)
      = some NRF_DATA_LENGTH ∧
    (run dataSheet FREQ_DEVIDER
        ((List.replicate 352 7 ++ List.replicate 352 9).map Step.tick
          ++ [Step.poll (fun _ => 0), Step.poll (fun _ => 0)]) init).map
        (fun p => ((adchReads p.2).length, transportEvents p.2))
      = some (64, [Event.csnLow, Event.delayUs SET_REGISTER_DELAY,
                    Event.exchange dataSheet.W_TX_PAYLOAD, Event.delayUs SET_REGISTER_DELAY]
                  ++ dataBytes (List.replicate 32 9) ++ [Event.csnHigh]) ∧
    ∃ sA trA, runTicks FREQ_DEVIDER (List.replicate 352 7) init = some (sA, trA) ∧
    ∃ sB trB, runTicks FREQ_DEVIDER (List.replicate 352 9) sA = some (sB, trB) ∧
      ((adchReads trA).length = NRF_DATA_LENGTH → (adchReads trB).length = NRF_DATA_LENGTH →
        sA.readyBuffer = 0 ∧ bufferRow sA.buffer 0 = some (adchReads trA) ∧
        readyWrites (trA ++ trB) = [0, 1] ∧ sB.readyBuffer = 1 ∧
        bufferRow sB.buffer 1 = some (adchReads trB) ∧
        bufferRow sB.buffer 0 = some (adchReads trA) ∧
        ∀ miso steps, ∃ sC trC,
          run dataSheet FREQ_DEVIDER (Step.poll miso :: steps) sB = some (sC, trC) ∧
          (published trC = [] →
            transportEvents trC
              = [Event.csnLow, Event.delayUs SET_REGISTER_DELAY,
                  Event.exchange dataSheet.W_TX_PAYLOAD, Event.delayUs SET_REGISTER_DELAY]
                ++ dataBytes (adchReads trB) ++ [Event.csnHigh] ∧
            sC.readyBuffer = -1)) :=
  ⟨⟨[], [], rfl⟩, rfl, rfl, by decide, by decide,
    publication_overwrite dataSheet init (List.replicate 352 7) (List.replicate 352 9)
      ⟨[], [], rfl⟩ rfl rfl⟩

/-! ## Hand-off between the producer and the consumer -/

theorem bufferRow_storeBuffer_other (buf buf1 : Buffers) (k i v : Nat) (b : Int)
    (hst : storeBuffer buf k i v = some buf1) (hne : b ≠ (k : Int)) :
    bufferRow buf1 b = bufferRow buf b := by
  unfold storeBuffer at hst
  split_ifs at hst with hb
  simp only [Option.some.injEq] at hst
  subst hst
  unfold bufferRow
  by_cases h0 : b = 0
  · have hk : ¬ (0 = k) := by
      intro hk0
      apply hne
      rw [h0, ← hk0]
      rfl
    simp only [h0, if_true]
    congr 2
    funext j
    simp [hk]
  · by_cases h1 : b = 1
    · have hk : ¬ (1 = k) := by
        intro hk1
        apply hne
        rw [h1, ← hk1]
        rfl
      simp only [h1, if_true]
      have h10 : ¬ ((1 : Int) = 0) := by omega
      simp only [h10, if_false]
      congr 2
      funext j
      simp [hk]
    · simp only [h0, h1, if_false]

theorem Own_init : Own init :=
  ⟨Inv_init, by simp [init]⟩

theorem pending_of_ready (s : State) (k : Nat) (hk : k < 2) (hready : s.readyBuffer = (k : Int)) :
    pending s = snapshot s.buffer (k : Int) := by
  have hne : ¬ ((k : Int) = -1) := by omega
  simp only [pending, hready, hne, if_false]

/-- A timer tick from a state that satisfies the ownership invariant: it
returns, keeps the invariant and produces no transport event; and either it
publishes nothing and leaves the marker and the pending buffer as they are,
or it publishes the active index. -/
theorem tick_handoff (d v : Nat) (s : State) (hown : Own s) :
    ∃ s1 t1, TIMER2_OVF_vect d v s = some (s1, t1) ∧ Own s1 ∧ transportEvents t1 = [] ∧
      ((published t1 = [] ∧ s1.readyBuffer = s.readyBuffer ∧ pending s1 = pending s) ∨
       (published t1 = [(s.currentBuffer : Int)] ∧
        s1.readyBuffer = (s.currentBuffer : Int))) := by
  obtain ⟨hinv, hne⟩ := hown
  obtain ⟨s1, t1, h1, hinv1⟩ := tick_Inv d v s hinv
  rcases tick_cases d v s hinv.1 hinv.2.1 with
    ⟨_, ht⟩ | ⟨_, buf, hbuf, ⟨hlt, ht⟩ | ⟨hlast, ht⟩⟩
  · rw [ht] at h1
    simp only [Option.some.injEq, Prod.mk.injEq] at h1
    obtain ⟨rfl, rfl⟩ := h1
    exact ⟨_, _, ht, ⟨hinv1, hne⟩, (tick_trace_skip _).2.2.2.2,
      Or.inl ⟨(tick_trace_skip _).2.2.2.1, rfl, rfl⟩⟩
  · rw [ht] at h1
    simp only [Option.some.injEq, Prod.mk.injEq] at h1
    obtain ⟨rfl, rfl⟩ := h1
    refine ⟨_, _, ht, ⟨hinv1, hne⟩, (tick_trace_mid _ _ _ _ _).2.2.2.2,
      Or.inl ⟨(tick_trace_mid _ _ _ _ _).2.2.2.1, rfl, ?_⟩⟩
    simp only [pending, snapshot]
    rw [bufferRow_storeBuffer_other _ _ _ _ _ _ hbuf hne]
  · rw [ht] at h1
    simp only [Option.some.injEq, Prod.mk.injEq] at h1
    obtain ⟨rfl, rfl⟩ := h1
    refine ⟨_, _, ht, ⟨hinv1, ?_⟩, (tick_trace_last _ _ _ _ _ _).2.2.2.2,
      Or.inr ⟨(tick_trace_last _ _ _ _ _ _).2.2.2.1, rfl⟩⟩
    show (s.currentBuffer : Int) ≠ ((1 - s.currentBuffer : Nat) : Int)
    have := hinv.1
    omega

/-- A main-loop iteration from a state that satisfies the ownership
invariant: it returns, keeps the invariant, publishes nothing, leaves no
buffer pending, and its transport events are the Send of the pending buffer,
if there is one. -/
theorem poll_handoff (h : NrfHeader) (miso : Nat → Nat) (s : State) (hown : Own s) :
    ∃ s1 t1, mainLoopBody h miso s = some (s1, t1) ∧ Own s1 ∧ published t1 = [] ∧
      s1.readyBuffer = -1 ∧
      transportEvents t1 = (pending s).flatMap (fun p => sendFrame h p.2) := by
  obtain ⟨hinv, hne⟩ := hown
  by_cases hready : s.readyBuffer = -1
  · refine ⟨s, [], by simp [mainLoopBody, hready], ⟨hinv, hne⟩, by simp [published, readyWrites],
      hready, ?_⟩
    simp [pending, hready, transportEvents]
  · have hK : s.readyBuffer = 0 ∨ s.readyBuffer = 1 := by
      have := hinv.2.2
      omega
    have hrow : ∃ data, bufferRow s.buffer s.readyBuffer = some data := by
      rcases hK with h0 | h0 <;> simp [bufferRow, h0]
    obtain ⟨data, hrow⟩ := hrow
    obtain ⟨_, p2, p3⟩ := poll_trace_projections h.W_TX_PAYLOAD data
    refine ⟨{ s with readyBuffer := -1 }, _, ?_, ⟨⟨hinv.1, hinv.2.1, Or.inl rfl⟩, ?_⟩, p2, rfl, ?_⟩
    · rw [mainLoopBody_eq h miso s hready, sendRow_eq h miso _ _ data hrow]
      rfl
    · show (-1 : Int) ≠ (s.currentBuffer : Int)
      omega
    · rw [p3]
      simp [pending, hready, snapshot, hrow, sendFrame]

/-- The hand-off along a run in which a main-loop iteration runs between every
two consecutive completions: the buffer pending at the start followed by the
publications of the run is the list of the sends of the run followed by the
buffer pending at the end; and the transport events of the run are the frames
of its sends. -/
theorem handoff_run (h : NrfHeader) (d : Nat) (steps : List Step) :
    ∀ (s : State) (waiting : Bool), Own s → (waiting = true ↔ s.readyBuffer ≠ -1) →
      pollBetweenCompletions h d waiting steps s = true →
      ∃ sf tr, run h d steps s = some (sf, tr) ∧ Own sf ∧
        pending s ++ publications h d steps s = sends h d steps s ++ pending sf ∧
        transportEvents tr = (sends h d steps s).flatMap (fun p => sendFrame h p.2) := by
  induction steps with
  | nil =>
    intro s waiting hown _ _
    exact ⟨s, [], rfl, hown, by simp [publications, sends], by simp [sends, transportEvents]⟩
  | cons x rest ih =>
    intro s waiting hown hwait hfast
    cases x with
    | tick v =>
      obtain ⟨s1, t1, h1, hown1, htr, hcase⟩ := tick_handoff d v s hown
      have hstep : step h d (Step.tick v) s = some (s1, t1) := h1
      simp only [pollBetweenCompletions, hstep] at hfast
      rcases hcase with ⟨hp, hr, hpend⟩ | ⟨hp, hr⟩
      · rw [if_pos hp] at hfast
        obtain ⟨sf, tr, hrun, hownf, heq, htrans⟩ := ih s1 waiting hown1 (by rw [hr]; exact hwait) hfast
        refine ⟨sf, t1 ++ tr, by simp only [run, hstep, hrun], hownf, ?_, ?_⟩
        · simp only [publications, sends, hstep, hp, List.flatMap_nil, List.nil_append]
          rw [← hpend]
          exact heq
        · simp only [sends, hstep, List.nil_append]
          rw [transportEvents_append, htr, List.nil_append]
          exact htrans
      · have hpne : ¬ published t1 = [] := by
          rw [hp]
          simp
        rw [if_neg hpne] at hfast
        simp only [Bool.and_eq_true, Bool.not_eq_true'] at hfast
        obtain ⟨hw, hfast1⟩ := hfast
        have hready : s.readyBuffer = -1 := by
          by_contra hcon
          have := hwait.mpr hcon
          rw [hw] at this
          exact Bool.noConfusion this
        have hcur := hown.1.1
        have hr1 : s1.readyBuffer ≠ -1 := by
          rw [hr]
          omega
        obtain ⟨sf, tr, hrun, hownf, heq, htrans⟩ :=
          ih s1 true hown1 ⟨fun _ => hr1, fun _ => rfl⟩ hfast1
        refine ⟨sf, t1 ++ tr, by simp only [run, hstep, hrun], hownf, ?_, ?_⟩
        · simp only [publications, sends, hstep, hp, List.flatMap_cons, List.flatMap_nil,
            List.append_nil, List.nil_append]
          rw [pending_of_ready s1 s.currentBuffer hcur hr] at heq
          simp only [pending, hready, if_true, List.nil_append]
          exact heq
        · simp only [sends, hstep, List.nil_append]
          rw [transportEvents_append, htr, List.nil_append]
          exact htrans
    | poll miso =>
      obtain ⟨s1, t1, h1, hown1, hp, hr, htr⟩ := poll_handoff h miso s hown
      have hstep : step h d (Step.poll miso) s = some (s1, t1) := h1
      simp only [pollBetweenCompletions, hstep] at hfast
      have hw1 : (false = true ↔ s1.readyBuffer ≠ -1) :=
        ⟨fun hf => Bool.noConfusion hf, fun hf => absurd hr hf⟩
      obtain ⟨sf, tr, hrun, hownf, heq, htrans⟩ := ih s1 false hown1 hw1 hfast
      have hpend1 : pending s1 = [] := by simp [pending, hr]
      rw [hpend1, List.nil_append] at heq
      refine ⟨sf, t1 ++ tr, by simp only [run, hstep, hrun], hownf, ?_, ?_⟩
      · simp only [publications, sends, hstep, hp, List.flatMap_nil, List.nil_append]
        rw [heq, List.append_assoc]
      · simp only [sends, hstep]
        rw [transportEvents_append, htr, htrans, List.flatMap_append]

theorem snapshot_mem (buf : Buffers) (b : Int) (p : Int × List Nat)
    (hp : p ∈ snapshot buf b) : (p.1 = 0 ∨ p.1 = 1) ∧ p.2.length = NRF_DATA_LENGTH := by
  unfold snapshot at hp
  cases hrow : bufferRow buf b with
  | none => simp [hrow] at hp
  | some data =>
    simp only [hrow, List.mem_singleton] at hp
    subst hp
    refine ⟨?_, bufferRow_length buf b data hrow⟩
    unfold bufferRow at hrow
    split_ifs at hrow with h0 h1
    · exact Or.inl h0
    · exact Or.inr h1

theorem sends_mem (h : NrfHeader) (d : Nat) (steps : List Step) :
    ∀ s p, p ∈ sends h d steps s → (p.1 = 0 ∨ p.1 = 1) ∧ p.2.length = NRF_DATA_LENGTH := by
  induction steps with
  | nil =>
    intro s p hp
    simp [sends] at hp
  | cons x rest ih =>
    intro s p hp
    simp only [sends] at hp
    cases hstep : step h d x s with
    | none => simp [hstep] at hp
    | some q =>
      obtain ⟨s1, t1⟩ := q
      simp only [hstep, List.mem_append] at hp
      rcases hp with hp | hp
      · cases x with
        | tick v => simp at hp
        | poll miso =>
          simp only [pending] at hp
          split_ifs at hp with hready
          · simp at hp
          · exact snapshot_mem _ _ _ hp
      · exact ih s1 p hp

/-- C11. No drop under a fast consumer. For every interleaving of timer ticks
and main-loop iterations from the initial state in which at least one
main-loop iteration runs between every two consecutive buffer completions,
the run returns and the publications of the run (the index written to
`readyBuffer` with the contents of that buffer at that moment) are, in order
and one for one, the sends of the run (the index captured by the main loop
with the contents of that buffer at the call), followed by the buffer still
pending at the end if there is one; every send is of buffer 0 or 1 and
carries `NRF_DATA_LENGTH` bytes; and the transport events of the run are
exactly the frames of these sends. -/
theorem no_drop_fast_consumer (h : NrfHeader) (steps : List Step)
    (hfast : pollBetweenCompletions h FREQ_DEVIDER false steps init = true) :
    ∃ s tr, run h FREQ_DEVIDER steps init = some (s, tr) ∧
      publications h FREQ_DEVIDER steps init = sends h FREQ_DEVIDER steps init ++ pending s ∧
      (s.readyBuffer = -1 →
        publications h FREQ_DEVIDER steps init = sends h FREQ_DEVIDER steps init) ∧
      (∀ p, p ∈ sends h FREQ_DEVIDER steps init →
        (p.1 = 0 ∨ p.1 = 1) ∧ p.2.length = NRF_DATA_LENGTH) ∧
      transportEvents tr
        = (sends h FREQ_DEVIDER steps init).flatMap (fun p => sendFrame h p.2) := by
  have hw : (false = true ↔ init.readyBuffer ≠ -1) :=
    ⟨fun hf => Bool.noConfusion hf, fun hf => absurd rfl hf⟩
  obtain ⟨s, tr, hrun, _, heq, htrans⟩ := handoff_run h FREQ_DEVIDER steps init false Own_init hw hfast
  have hpend0 : pending init = [] := by simp [pending, init]
  rw [hpend0, List.nil_append] at heq
  refine ⟨s, tr, hrun, heq, ?_, sends_mem h FREQ_DEVIDER steps init, htrans⟩
  intro hready
  rw [heq]
  simp [pending, hready]

/-- C11 on a concrete run: three buffers are completed, with a main-loop
iteration after the first and after the second. -/
theorem no_drop_fast_consumer_witness :
    pollBetweenCompletions dataSheet FREQ_DEVIDER false fastRun init = true ∧
    (publications dataSheet FREQ_DEVIDER fastRun init).map (fun p => p.1) = [0, 1, 0] ∧
    (sends dataSheet FREQ_DEVIDER fastRun init).map (fun p => p.1) = [0, 1] ∧
    ∃ s tr, run dataSheet FREQ_DEVIDER fastRun init = some (s, tr) ∧
      publications dataSheet FREQ_DEVIDER fastRun init
        = sends dataSheet FREQ_DEVIDER fastRun init ++ pending s ∧
      (s.readyBuffer = -1 →
        publications dataSheet FREQ_DEVIDER fastRun init
          = sends dataSheet FREQ_DEVIDER fastRun init) ∧
      (∀ p, p ∈ sends dataSheet FREQ_DEVIDER fastRun init →
        (p.1 = 0 ∨ p.1 = 1) ∧ p.2.length = NRF_DATA_LENGTH) ∧
      transportEvents tr
        = (sends dataSheet FREQ_DEVIDER fastRun init).flatMap
            (fun p => sendFrame dataSheet p.2) :=
  ⟨by decide, by decide, by decide,
    no_drop_fast_consumer dataSheet fastRun (by decide)⟩

/-! ## Chip-select framing of the operations -/

theorem noCsn_dataBytes (bytes : List Nat) : noCsn (dataBytes bytes) = true := by
  induction bytes with
  | nil => simp [dataBytes, noCsn]
  | cons b rest ih =>
    simp only [dataBytes, noCsn] at ih ⊢
    simp [ih]

theorem exchangesSettled_dataBytes (bytes : List Nat) (rest : List Event) :
    exchangesSettled (dataBytes bytes ++ rest) = exchangesSettled rest := by
  induction bytes with
  | nil => simp [dataBytes]
  | cons b bs ih =>
    have hcons : dataBytes (b :: bs) ++ rest
        = Event.exchange b :: Event.delayUs SET_REGISTER_DELAY :: (dataBytes bs ++ rest) := by
      simp [dataBytes]
    rw [hcons]
    simp only [exchangesSettled, decide_True, Bool.true_and]
    exact ih

theorem noCsn_levels (body : List Event) (hbody : noCsn body = true) :
    exchangesAsserted false (body ++ [Event.csnHigh]) = true ∧
    csnLevel false (body ++ [Event.csnHigh]) = true := by
  induction body with
  | nil => simp [exchangesAsserted, csnLevel]
  | cons e rest ih =>
    have hrest : noCsn rest = true := by
      simp only [noCsn, List.all_cons, Bool.and_eq_true] at hbody ⊢
      exact hbody.2
    have hhead : e ≠ Event.csnLow ∧ e ≠ Event.csnHigh := by
      simp only [noCsn, List.all_cons, Bool.and_eq_true] at hbody
      constructor <;> (intro he; rw [he] at hbody; simp at hbody)
    obtain ⟨ih1, ih2⟩ := ih hrest
    cases e <;> simp_all [exchangesAsserted, csnLevel]

theorem Framed_levels (tr : List Event) (hf : Framed tr) : WellFramed tr := by
  refine ⟨hf, ?_⟩
  obtain ⟨body, rfl, hbody, _⟩ := hf
  intro level
  obtain ⟨h1, h2⟩ := noCsn_levels body hbody
  simp only [List.cons_append, List.nil_append, exchangesAsserted, csnLevel]
  exact ⟨h1, h2⟩

/-- The trace of a command byte `c` followed by the data bytes `bytes` inside
one chip-select frame is well framed. -/
theorem WellFramed_dataBytes (c : Nat) (bytes : List Nat) :
    WellFramed ([Event.csnLow, Event.delayUs SET_REGISTER_DELAY, Event.exchange c,
      Event.delayUs SET_REGISTER_DELAY] ++ dataBytes bytes ++ [Event.csnHigh]) := by
  apply Framed_levels
  refine ⟨[Event.exchange c, Event.delayUs SET_REGISTER_DELAY] ++ dataBytes bytes, by simp, ?_, ?_⟩
  · have := noCsn_dataBytes bytes
    simp only [noCsn] at this ⊢
    simp [this]
  · have hshape : [Event.csnLow, Event.delayUs SET_REGISTER_DELAY, Event.exchange c,
          Event.delayUs SET_REGISTER_DELAY] ++ dataBytes bytes ++ [Event.csnHigh]
        = Event.csnLow :: Event.delayUs SET_REGISTER_DELAY :: Event.exchange c ::
            Event.delayUs SET_REGISTER_DELAY :: (dataBytes bytes ++ [Event.csnHigh]) := by
      simp
    rw [hshape]
    simp only [exchangesSettled, decide_True, Bool.true_and]
    rw [exchangesSettled_dataBytes bytes [Event.csnHigh]]
    rfl

theorem getNrfReceivedData_loop_eq (h : NrfHeader) (miso : Nat → Nat) :
    ∀ n i data, i + n ≤ data.length →
      ∃ data1, getNrfReceivedData_loop h miso n i data
          = some (data1, dataBytes (List.replicate n h.NOP)) ∧
        data1.length = data.length := by
  intro n
  induction n with
  | zero =>
    intro i data _
    exact ⟨data, by simp [getNrfReceivedData_loop, dataBytes], rfl⟩
  | succ n ih =>
    intro i data hi
    have hlt : i < data.length := by omega
    obtain ⟨data1, hloop, hlen⟩ := ih (i + 1) (data.set i (miso (i + 1)))
      (by rw [List.length_set]; omega)
    refine ⟨data1, ?_, by rw [hlen, List.length_set]⟩
    simp only [getNrfReceivedData_loop, writeMSPI, hlt, if_true, hloop]
    simp [dataBytes, List.replicate_succ]

theorem getNrfReceivedData_eq (h : NrfHeader) (miso : Nat → Nat) (data : List Nat)
    (hlen : NRF_DATA_LENGTH ≤ data.length) :
    ∃ data1, getNrfReceivedData h miso data
        = some (data1,
            [Event.csnLow, Event.delayUs SET_REGISTER_DELAY, Event.exchange h.R_RX_PAYLOAD,
              Event.delayUs SET_REGISTER_DELAY]
            ++ dataBytes (List.replicate NRF_DATA_LENGTH h.NOP) ++ [Event.csnHigh]) ∧
      data1.length = data.length := by
  obtain ⟨data1, hloop, hlen1⟩ := getNrfReceivedData_loop_eq h miso NRF_DATA_LENGTH 0 data
    (by omega)
  refine ⟨data1, ?_, hlen1⟩
  simp [getNrfReceivedData, hloop, initNrfRegister, writeMSPI]

theorem setNrfRegister_eq (h : NrfHeader) (miso : Nat → Nat) (reg val count : Nat) :
    setNrfRegister h miso reg val count
      = [Event.csnLow, Event.delayUs SET_REGISTER_DELAY,
          Event.exchange ((h.W_REGISTER + reg) % 256), Event.delayUs SET_REGISTER_DELAY]
        ++ dataBytes (List.replicate count val) ++ [Event.csnHigh] := by
  simp [setNrfRegister, setNrfRegister_loop_eq, initNrfRegister, writeMSPI]

theorem getNfrRegister_eq (h : NrfHeader) (miso : Nat → Nat) (reg : Nat) :
    getNfrRegister h miso reg
      = (miso 1,
          [Event.csnLow, Event.delayUs SET_REGISTER_DELAY,
            Event.exchange ((h.R_REGISTER + reg) % 256), Event.delayUs SET_REGISTER_DELAY]
          ++ dataBytes [h.NOP] ++ [Event.csnHigh]) := by
  simp [getNfrRegister, initNrfRegister, writeMSPI, dataBytes]

/-- C12. Chip-select framing of every operation. For each of
`getNfrRegister`, `setNrfRegister`, `setNrfTransmitData` (reading inside its
array) and `getNrfReceivedData` (writing inside its array), for all arguments
and all bytes received from the transceiver, the operation returns and its
trace is: chip-select low, the settle delay, a body without any change of
chip-select, chip-select high, with every byte exchange immediately followed
by the delay of `SET_REGISTER_DELAY` microseconds; and for either level of
the chip-select line before the operation, every byte is exchanged while the
line is low and the line is high at the end. -/
theorem chip_select_framing (h : NrfHeader) (miso : Nat → Nat) :
    (∀ reg, WellFramed (getNfrRegister h miso reg).2) ∧
    (∀ reg val count, WellFramed (setNrfRegister h miso reg val count)) ∧
    (∀ data L, L ≤ data.length →
      ∃ tr, setNrfTransmitData h miso data L = some tr ∧ WellFramed tr) ∧
    (∀ data, NRF_DATA_LENGTH ≤ data.length →
      ∃ data1 tr, getNrfReceivedData h miso data = some (data1, tr) ∧ WellFramed tr) := by
  refine ⟨?_, ?_, ?_, ?_⟩
  · intro reg
    rw [getNfrRegister_eq]
    exact WellFramed_dataBytes _ _
  · intro reg val count
    rw [setNrfRegister_eq]
    exact WellFramed_dataBytes _ _
  · intro data L hL
    exact ⟨_, setNrfTransmitData_eq h miso data L hL, WellFramed_dataBytes _ _⟩
  · intro data hlen
    obtain ⟨data1, hrun, _⟩ := getNrfReceivedData_eq h miso data hlen
    exact ⟨data1, _, hrun, WellFramed_dataBytes _ _⟩

/-! ## Initialization and register read -/

theorem setNrfRegister_registerWrite (h : NrfHeader) (miso : Nat → Nat) (reg val count : Nat) :
    setNrfRegister h miso reg val count = registerWrite h reg val count := by
  rw [setNrfRegister_eq, dataBytes_replicate]
  rfl

theorem exchanges_registerWrite (h : NrfHeader) (reg val count : Nat) :
    exchanges (registerWrite h reg val count)
      = (h.W_REGISTER + reg) % 256 :: List.replicate count val := by
  have hbody : ∀ n, exchanges
      ((List.replicate n [Event.exchange val, Event.delayUs SET_REGISTER_DELAY]).flatten
        ++ [Event.csnHigh]) = List.replicate n val := by
    intro n
    induction n with
    | zero => simp [exchanges]
    | succ n ih =>
      simp only [exchanges] at ih
      simp [exchanges, List.replicate_succ, ih]
  have := hbody count
  simp only [exchanges] at this
  simp [registerWrite, exchanges, this]

theorem ceHigh_not_mem_registerWrite (h : NrfHeader) (reg val count : Nat) :
    Event.ceHigh ∉ registerWrite h reg val count := by
  intro hmem
  simp only [registerWrite, List.mem_append, List.mem_cons, List.mem_singleton,
    List.mem_flatten, List.mem_replicate] at hmem
  rcases hmem with (hm | ⟨l, ⟨_, rfl⟩, hm⟩) | hm
  · simp at hm
  · simp at hm
  · simp at hm

/-- C13. Initialization sequence. The trace of `initNrf` is exactly
chip-select high, enable low, a delay of 100 ms, then the register writes
`(EN_AA, 0x00, 1)`, `(SETUP_RETR, 0x2F, 1)`, `(EN_RXADDR, 0x01, 1)`,
`(SETUP_AW, 0x03, 1)`, `(RF_CH, 0x01, 1)`, `(RF_SETUP, 0x07, 1)`,
`(RX_ADDR_P0, 0x12, 5)`, `(TX_ADDR, 0x12, 5)`,
`(RX_PW_P0, NRF_DATA_LENGTH, 1)`, `(CONFIG, 0x12, 1)` in this order, then a
delay of 100 ms. The two address writes send the same five data bytes, the
payload-length write sends `NRF_DATA_LENGTH`, the mode value `0x12` has bit 1
set and bits 0 and 3 clear, and the enable line is never asserted. -/
theorem initNrf_trace (h : NrfHeader) (miso : Nat → Nat → Nat) :
    initNrf h miso
      = [Event.csnHigh, Event.ceLow, Event.delayMs 100]
        ++ registerWrite h h.EN_AA 0x00 1
        ++ registerWrite h h.SETUP_RETR 0x2F 1
        ++ registerWrite h h.EN_RXADDR 0x01 1
        ++ registerWrite h h.SETUP_AW 0x03 1
        ++ registerWrite h h.RF_CH 0x01 1
        ++ registerWrite h h.RF_SETUP 0x07 1
        ++ registerWrite h h.RX_ADDR_P0 0x12 5
        ++ registerWrite h h.TX_ADDR 0x12 5
        ++ registerWrite h h.RX_PW_P0 NRF_DATA_LENGTH 1
        ++ registerWrite h h.CONFIG 0x12 1
        ++ [Event.delayMs 100] ∧
    exchanges (registerWrite h h.RX_ADDR_P0 0x12 5)
      = (h.W_REGISTER + h.RX_ADDR_P0) % 256 :: [0x12, 0x12, 0x12, 0x12, 0x12] ∧
    exchanges (registerWrite h h.TX_ADDR 0x12 5)
      = (h.W_REGISTER + h.TX_ADDR) % 256 :: [0x12, 0x12, 0x12, 0x12, 0x12] ∧
    exchanges (registerWrite h h.RX_PW_P0 NRF_DATA_LENGTH 1)
      = [(h.W_REGISTER + h.RX_PW_P0) % 256, NRF_DATA_LENGTH] ∧
    exchanges (registerWrite h h.CONFIG 0x12 1) = [(h.W_REGISTER + h.CONFIG) % 256, 0x12] ∧
    Nat.testBit 0x12 1 = true ∧ Nat.testBit 0x12 0 = false ∧ Nat.testBit 0x12 3 = false ∧
    Event.ceHigh ∉ initNrf h miso := by
  have htrace : initNrf h miso
      = [Event.csnHigh, Event.ceLow, Event.delayMs 100]
        ++ registerWrite h h.EN_AA 0x00 1
        ++ registerWrite h h.SETUP_RETR 0x2F 1
        ++ registerWrite h h.EN_RXADDR 0x01 1
        ++ registerWrite h h.SETUP_AW 0x03 1
        ++ registerWrite h h.RF_CH 0x01 1
        ++ registerWrite h h.RF_SETUP 0x07 1
        ++ registerWrite h h.RX_ADDR_P0 0x12 5
        ++ registerWrite h h.TX_ADDR 0x12 5
        ++ registerWrite h h.RX_PW_P0 NRF_DATA_LENGTH 1
        ++ registerWrite h h.CONFIG 0x12 1
        ++ [Event.delayMs 100] := by
    simp only [initNrf, setNrfRegister_registerWrite]
  refine ⟨htrace, ?_, ?_, ?_, ?_, by decide, by decide, by decide, ?_⟩
  · rw [exchanges_registerWrite]
    rfl
  · rw [exchanges_registerWrite]
    rfl
  · rw [exchanges_registerWrite]
    rfl
  · rw [exchanges_registerWrite]
    rfl
  · rw [htrace]
    intro hmem
    simp only [List.mem_append, List.mem_cons, List.mem_singleton] at hmem
    have hreg := fun reg val count => ceHigh_not_mem_registerWrite h reg val count
    simp [hreg] at hmem

/-- C14. Register read. For every register number `R` and all bytes received
from the transceiver, the trace of `getNfrRegister(R)` is exactly chip-select
low, settle delay, the command byte `(R_REGISTER + R) mod 256`, settle delay,
the byte `NOP`, settle delay, chip-select high, and the value returned is the
byte received during the second exchange: with `r0` received while the
command byte is sent and `r1` while `NOP` is sent, it returns `r1`. -/
theorem getNfrRegister_read (h : NrfHeader) (miso : Nat → Nat) (R : Nat) :
    getNfrRegister h miso R
      = (miso 1,
          [Event.csnLow, Event.delayUs SET_REGISTER_DELAY,
            Event.exchange ((h.R_REGISTER + R) % 256), Event.delayUs SET_REGISTER_DELAY,
            Event.exchange h.NOP, Event.delayUs SET_REGISTER_DELAY, Event.csnHigh]) ∧
    ∀ r0 r1 : Nat, (getNfrRegister h (fun k => if k = 0 then r0 else r1) R).1 = r1 := by
  constructor
  · rw [getNfrRegister_eq]
    simp [dataBytes]
  · intro r0 r1
    rw [getNfrRegister_eq]
    simp

/-! ## Bounds, ownership and frame conditions of the producer -/

/-- C15. No buffer overrun. In every state reachable from the initial state
by an interleaving of timer ticks and main-loop iterations, `currentBuffer < 2`
and `bufferCounter < NRF_DATA_LENGTH`; the store of the interrupt handler is
inside the array, the handler returns, every buffer write it performs is to
the cell `buffer[currentBuffer][bufferCounter]` with both indices in range,
the cursor stays below `NRF_DATA_LENGTH`, and the accepting tick that finds
the cursor at `NRF_DATA_LENGTH - 1` completes the buffer and leaves the cursor
at 0. -/
theorem no_buffer_overrun (h : NrfHeader) (s : State) (hreach : Reachable h FREQ_DEVIDER s) :
    s.currentBuffer < 2 ∧ s.bufferCounter < NRF_DATA_LENGTH ∧
    ∀ v, (storeBuffer s.buffer s.currentBuffer s.bufferCounter v).isSome = true ∧
      ∃ s1 t1, TIMER2_OVF_vect FREQ_DEVIDER v s = some (s1, t1) ∧
        (∀ k i x, Event.wBuffer k i x ∈ t1 →
          k = s.currentBuffer ∧ i = s.bufferCounter ∧ k < 2 ∧ i < NRF_DATA_LENGTH) ∧
        s1.bufferCounter < NRF_DATA_LENGTH ∧
        (adchReads t1 = [v] → s.bufferCounter + 1 = NRF_DATA_LENGTH →
          s1.bufferCounter = 0 ∧ readyWrites t1 = [(s.currentBuffer : Int)]) := by
  have hinv := Reachable_Inv _ _ _ hreach
  refine ⟨hinv.1, hinv.2.1, ?_⟩
  intro v
  constructor
  · obtain ⟨buf, hbuf⟩ := storeBuffer_isSome s.buffer _ _ v hinv.1 hinv.2.1
    rw [hbuf]
    rfl
  · have hcnt : s.bufferCounter < 32 := hinv.2.1
    rcases tick_cases FREQ_DEVIDER v s hinv.1 hinv.2.1 with
      ⟨_, ht⟩ | ⟨_, buf, hbuf, ⟨hlt, ht⟩ | ⟨hlast, ht⟩⟩
    · refine ⟨_, _, ht, ?_, hinv.2.1, ?_⟩
      · intro k i x hmem
        simp at hmem
      · intro hreads
        rw [(tick_trace_skip _).1] at hreads
        simp at hreads
    · refine ⟨_, _, ht, ?_, hlt, ?_⟩
      · intro k i x hmem
        simp at hmem
        obtain ⟨hk, hi, _⟩ := hmem
        exact ⟨hk, hi, hk ▸ hinv.1, hi ▸ hinv.2.1⟩
      · intro _ hN
        have hlt1 : s.bufferCounter + 1 < 32 := hlt
        have hN1 : s.bufferCounter + 1 = 32 := hN
        omega
    · refine ⟨_, _, ht, ?_, by show 0 < 32; omega, ?_⟩
      · intro k i x hmem
        simp at hmem
        obtain ⟨hk, hi, _⟩ := hmem
        exact ⟨hk, hi, hk ▸ hinv.1, hi ▸ hinv.2.1⟩
      · intro _ _
        exact ⟨rfl, (tick_trace_last _ _ _ _ _ _).2.1⟩

/-- C15 at the state reached after 351 ticks: the cursor is at 31, the next
tick accepts a sample, stores it in cell 31 of row 0, inside the array, and
leaves the cursor at 0 instead of taking it to `NRF_DATA_LENGTH`. -/
theorem no_buffer_overrun_witness :
    ∃ s tr, run dataSheet FREQ_DEVIDER ((List.replicate 351 7).map Step.tick) init
        = some (s, tr) ∧
      s.bufferCounter = 31 ∧ s.currentBuffer = 0 ∧ s.ovfCounter = 10 ∧
      Reachable dataSheet FREQ_DEVIDER s ∧
      (∃ s1 t1, TIMER2_OVF_vect FREQ_DEVIDER 7 s = some (s1, t1) ∧
        Event.wBuffer 0 31 7 ∈ t1 ∧ adchReads t1 = [7] ∧ s1.bufferCounter = 0) ∧
      (s.currentBuffer < 2 ∧ s.bufferCounter < NRF_DATA_LENGTH ∧
      ∀ v, (storeBuffer s.buffer s.currentBuffer s.bufferCounter v).isSome = true ∧
        ∃ s1 t1, TIMER2_OVF_vect FREQ_DEVIDER v s = some (s1, t1) ∧
          (∀ k i x, Event.wBuffer k i x ∈ t1 →
            k = s.currentBuffer ∧ i = s.bufferCounter ∧ k < 2 ∧ i < NRF_DATA_LENGTH) ∧
          s1.bufferCounter < NRF_DATA_LENGTH ∧
          (adchReads t1 = [v] → s.bufferCounter + 1 = NRF_DATA_LENGTH →
            s1.bufferCounter = 0 ∧ readyWrites t1 = [(s.currentBuffer : Int)])) := by
  obtain ⟨s, tr, hrun, hinv⟩ :=
    run_Inv dataSheet FREQ_DEVIDER ((List.replicate 351 7).map Step.tick) init Inv_init
  have hfields : (run dataSheet FREQ_DEVIDER ((List.replicate 351 7).map Step.tick) init).map
      (fun p => (p.1.bufferCounter, p.1.currentBuffer, p.1.ovfCounter))
      = some (31, 0, 10) := by decide
  rw [hrun] at hfields
  simp only [Option.map_some', Option.some.injEq, Prod.mk.injEq] at hfields
  obtain ⟨hc, hk, ho⟩ := hfields
  have htick : ∃ s1 t1, TIMER2_OVF_vect FREQ_DEVIDER 7 s = some (s1, t1) ∧
      Event.wBuffer 0 31 7 ∈ t1 ∧ adchReads t1 = [7] ∧ s1.bufferCounter = 0 := by
    rcases tick_cases FREQ_DEVIDER 7 s hinv.1 hinv.2.1 with
      ⟨hskip, _⟩ | ⟨_, buf, hbuf, ⟨hlt, _⟩ | ⟨_, ht⟩⟩
    · rw [ho] at hskip
      exact absurd (by decide) hskip
    · rw [hc] at hlt
      exact absurd hlt (by decide)
    · exact ⟨_, _, ht, by simp [hc, hk], (tick_trace_last _ _ _ _ _ _).1, rfl⟩
  exact ⟨s, tr, hrun, hc, hk, ho, ⟨_, _, hrun⟩, htick,
    no_buffer_overrun dataSheet s ⟨_, _, hrun⟩⟩

theorem step_Own (h : NrfHeader) (d : Nat) (x : Step) (s : State) (hown : Own s) :
    ∃ s1 t1, step h d x s = some (s1, t1) ∧ Own s1 := by
  cases x with
  | tick v =>
    obtain ⟨s1, t1, h1, hown1, _⟩ := tick_handoff d v s hown
    exact ⟨s1, t1, h1, hown1⟩
  | poll miso =>
    obtain ⟨s1, t1, h1, hown1, _⟩ := poll_handoff h miso s hown
    exact ⟨s1, t1, h1, hown1⟩

theorem run_Own (h : NrfHeader) (d : Nat) (steps : List Step) :
    ∀ s, Own s → ∃ s1 tr, run h d steps s = some (s1, tr) ∧ Own s1 := by
  induction steps with
  | nil => intro s hown; exact ⟨s, [], rfl, hown⟩
  | cons x rest ih =>
    intro s hown
    obtain ⟨s1, t1, h1, hown1⟩ := step_Own h d x s hown
    obtain ⟨s2, t2, h2, hown2⟩ := ih s1 hown1
    exact ⟨s2, t1 ++ t2, by simp only [run, h1, h2], hown2⟩

theorem Reachable_Own (h : NrfHeader) (d : Nat) (s : State) (hreach : Reachable h d s) :
    Own s := by
  obtain ⟨steps, tr, hrun⟩ := hreach
  obtain ⟨s1, t1, h1, hown⟩ := run_Own h d steps init Own_init
  rw [h1] at hrun
  simp only [Option.some.injEq, Prod.mk.injEq] at hrun
  rw [← hrun.1]
  exact hown

/-- The buffer writes of a timer tick from a state with the indices in range
go to the active row. -/
theorem tick_writes_active (d v : Nat) (s s1 : State) (t1 : List Event) (hinv : Inv s)
    (hrun : TIMER2_OVF_vect d v s = some (s1, t1)) :
    ∀ k i x, Event.wBuffer k i x ∈ t1 → k = s.currentBuffer := by
  intro k i x hmem
  rcases tick_cases d v s hinv.1 hinv.2.1 with
    ⟨_, ht⟩ | ⟨_, buf, hbuf, ⟨hlt, ht⟩ | ⟨hlast, ht⟩⟩
  all_goals
    rw [ht] at hrun
    simp only [Option.some.injEq, Prod.mk.injEq] at hrun
    obtain ⟨_, rfl⟩ := hrun
  · simp at hmem
  · simp at hmem
    exact hmem.1
  · simp at hmem
    exact hmem.1

/-- C18. Pending buffer is never the active buffer. In every state reachable
from the initial state by an interleaving of timer ticks and main-loop
iterations, `currentBuffer` is 0 or 1 and `readyBuffer ≠ currentBuffer`; a
tick from such a state returns and writes no cell of the buffer marked
pending; and of two successive ticks, the second writes no cell of a buffer
that the first has published. -/
theorem pending_not_active (h : NrfHeader) (s : State) (hreach : Reachable h FREQ_DEVIDER s) :
    (s.currentBuffer = 0 ∨ s.currentBuffer = 1) ∧ s.readyBuffer ≠ (s.currentBuffer : Int) ∧
    ∀ v, ∃ s1 t1, TIMER2_OVF_vect FREQ_DEVIDER v s = some (s1, t1) ∧
      (∀ k i x, Event.wBuffer k i x ∈ t1 → (k : Int) ≠ s.readyBuffer) ∧
      ∀ v2, ∃ s2 t2, TIMER2_OVF_vect FREQ_DEVIDER v2 s1 = some (s2, t2) ∧
        ∀ K, K ∈ readyWrites t1 → ∀ k i x, Event.wBuffer k i x ∈ t2 → (k : Int) ≠ K := by
  have hown := Reachable_Own _ _ _ hreach
  have hcur := hown.1.1
  refine ⟨by omega, hown.2, ?_⟩
  intro v
  obtain ⟨s1, t1, h1, hown1, _, hcase⟩ := tick_handoff FREQ_DEVIDER v s hown
  refine ⟨s1, t1, h1, ?_, ?_⟩
  · intro k i x hmem
    rw [tick_writes_active _ _ _ _ _ hown.1 h1 k i x hmem]
    exact fun heq => hown.2 heq.symm
  · intro v2
    obtain ⟨s2, t2, h2, _⟩ := tick_handoff FREQ_DEVIDER v2 s1 hown1
    refine ⟨s2, t2, h2, ?_⟩
    intro K hK k i x hmem
    rw [tick_writes_active _ _ _ _ _ hown1.1 h2 k i x hmem]
    have hK1 : K = s1.readyBuffer := by
      rcases tick_cases FREQ_DEVIDER v s hown.1.1 hown.1.2.1 with
        ⟨_, ht⟩ | ⟨_, buf, hbuf, ⟨hlt, ht⟩ | ⟨hlast, ht⟩⟩
      all_goals
        rw [ht] at h1
        simp only [Option.some.injEq, Prod.mk.injEq] at h1
        obtain ⟨rfl, rfl⟩ := h1
      · rw [(tick_trace_skip _).2.1] at hK
        simp at hK
      · rw [(tick_trace_mid _ _ _ _ _).2.1] at hK
        simp at hK
      · rw [(tick_trace_last _ _ _ _ _ _).2.1] at hK
        simpa using hK
    rw [hK1]
    exact fun heq => hown1.2 heq.symm

/-- C18 at two reached states. After 362 ticks buffer 0 is pending
(`readyBuffer = 0`, `currentBuffer = 1`) and the next tick accepts a sample
and stores it in row 1, not in the pending row 0. After 351 ticks the next
tick completes and publishes buffer 0, and the tick after it writes no cell
of buffer 0. -/
theorem pending_not_active_witness :
    (∃ s tr, run dataSheet FREQ_DEVIDER ((List.replicate 362 7).map Step.tick) init
        = some (s, tr) ∧
      s.readyBuffer = 0 ∧ s.currentBuffer = 1 ∧ Reachable dataSheet FREQ_DEVIDER s ∧
      (∃ s1 t1, TIMER2_OVF_vect FREQ_DEVIDER 7 s = some (s1, t1) ∧
        Event.wBuffer 1 0 7 ∈ t1) ∧
      ((s.currentBuffer = 0 ∨ s.currentBuffer = 1) ∧
      s.readyBuffer ≠ (s.currentBuffer : Int) ∧
      ∀ v, ∃ s1 t1, TIMER2_OVF_vect FREQ_DEVIDER v s = some (s1, t1) ∧
        (∀ k i x, Event.wBuffer k i x ∈ t1 → (k : Int) ≠ s.readyBuffer) ∧
        ∀ v2, ∃ s2 t2, TIMER2_OVF_vect FREQ_DEVIDER v2 s1 = some (s2, t2) ∧
          ∀ K, K ∈ readyWrites t1 → ∀ k i x, Event.wBuffer k i x ∈ t2 → (k : Int) ≠ K)) ∧
    (∃ s tr, run dataSheet FREQ_DEVIDER ((List.replicate 351 7).map Step.tick) init
        = some (s, tr) ∧
      s.readyBuffer = -1 ∧ s.currentBuffer = 0 ∧ Reachable dataSheet FREQ_DEVIDER s ∧
      (∃ s1 t1, TIMER2_OVF_vect FREQ_DEVIDER 7 s = some (s1, t1) ∧
        readyWrites t1 = [0] ∧ s1.readyBuffer = 0 ∧ s1.currentBuffer = 1) ∧
      ((s.currentBuffer = 0 ∨ s.currentBuffer = 1) ∧
      s.readyBuffer ≠ (s.currentBuffer : Int) ∧
      ∀ v, ∃ s1 t1, TIMER2_OVF_vect FREQ_DEVIDER v s = some (s1, t1) ∧
        (∀ k i x, Event.wBuffer k i x ∈ t1 → (k : Int) ≠ s.readyBuffer) ∧
        ∀ v2, ∃ s2 t2, TIMER2_OVF_vect FREQ_DEVIDER v2 s1 = some (s2, t2) ∧
          ∀ K, K ∈ readyWrites t1 → ∀ k i x, Event.wBuffer k i x ∈ t2 → (k : Int) ≠ K)) := by
  constructor
  · obtain ⟨s, tr, hrun, hinv⟩ :=
      run_Inv dataSheet FREQ_DEVIDER ((List.replicate 362 7).map Step.tick) init Inv_init
    have hfields :
        (run dataSheet FREQ_DEVIDER ((List.replicate 362 7).map Step.tick) init).map
          (fun p => (p.1.bufferCounter, p.1.ovfCounter, p.1.currentBuffer, p.1.readyBuffer))
        = some (0, 10, 1, 0) := by decide
    rw [hrun] at hfields
    simp only [Option.map_some', Option.some.injEq, Prod.mk.injEq] at hfields
    obtain ⟨hc, ho, hk, hr⟩ := hfields
    have htick : ∃ s1 t1, TIMER2_OVF_vect FREQ_DEVIDER 7 s = some (s1, t1) ∧
        Event.wBuffer 1 0 7 ∈ t1 := by
      rcases tick_cases FREQ_DEVIDER 7 s hinv.1 hinv.2.1 with
        ⟨hskip, _⟩ | ⟨_, buf, hbuf, ⟨_, ht⟩ | ⟨hlast, _⟩⟩
      · rw [ho] at hskip
        exact absurd (by decide) hskip
      · exact ⟨_, _, ht, by simp [hc, hk]⟩
      · rw [hc] at hlast
        exact absurd hlast (by decide)
    exact ⟨s, tr, hrun, hr, hk, ⟨_, _, hrun⟩, htick,
      pending_not_active dataSheet s ⟨_, _, hrun⟩⟩
  · obtain ⟨s, tr, hrun, hinv⟩ :=
      run_Inv dataSheet FREQ_DEVIDER ((List.replicate 351 7).map Step.tick) init Inv_init
    have hfields :
        (run dataSheet FREQ_DEVIDER ((List.replicate 351 7).map Step.tick) init).map
          (fun p => (p.1.bufferCounter, p.1.ovfCounter, p.1.currentBuffer, p.1.readyBuffer))
        = some (31, 10, 0, -1) := by decide
    rw [hrun] at hfields
    simp only [Option.map_some', Option.some.injEq, Prod.mk.injEq] at hfields
    obtain ⟨hc, ho, hk, hr⟩ := hfields
    have htick : ∃ s1 t1, TIMER2_OVF_vect FREQ_DEVIDER 7 s = some (s1, t1) ∧
        readyWrites t1 = [0] ∧ s1.readyBuffer = 0 ∧ s1.currentBuffer = 1 := by
      rcases tick_cases FREQ_DEVIDER 7 s hinv.1 hinv.2.1 with
        ⟨hskip, _⟩ | ⟨_, buf, hbuf, ⟨hlt, _⟩ | ⟨_, ht⟩⟩
      · rw [ho] at hskip
        exact absurd (by decide) hskip
      · rw [hc] at hlt
        exact absurd hlt (by decide)
      · refine ⟨_, _, ht, ?_, ?_, ?_⟩
        · rw [(tick_trace_last _ _ _ _ _ _).2.1, hk]
          rfl
        · show (s.currentBuffer : Int) = 0
          rw [hk]
          rfl
        · show 1 - s.currentBuffer = 1
          rw [hk]
    exact ⟨s, tr, hrun, hr, hk, ⟨_, _, hrun⟩, htick,
      pending_not_active dataSheet s ⟨_, _, hrun⟩⟩

/-! ## The acceptance condition of the divider -/

theorem step_ovf (h : NrfHeader) (d : Nat) (x : Step) (s : State) (hinv : Inv s)
    (hovf : s.ovfCounter ≤ d) :
    ∃ s1 t1, step h d x s = some (s1, t1) ∧ Inv s1 ∧ s1.ovfCounter ≤ d := by
  cases x with
  | tick v =>
    obtain ⟨s1, t1, h1, hinv1⟩ := tick_Inv d v s hinv
    refine ⟨s1, t1, h1, hinv1, ?_⟩
    rcases tick_cases d v s hinv.1 hinv.2.1 with
      ⟨hskip, ht⟩ | ⟨_, buf, hbuf, ⟨hlt, ht⟩ | ⟨hlast, ht⟩⟩
    all_goals
      have h2 : TIMER2_OVF_vect d v s = some (s1, t1) := h1
      rw [ht] at h2
      simp only [Option.some.injEq, Prod.mk.injEq] at h2
      obtain ⟨rfl, _⟩ := h2
    · show (s.ovfCounter + 1) % 256 ≤ d
      omega
    · exact Nat.zero_le _
    · exact Nat.zero_le _
  | poll miso =>
    obtain ⟨s1, t1, h1, hinv1⟩ := poll_Inv h miso s hinv
    refine ⟨s1, t1, h1, hinv1, ?_⟩
    by_cases hne : s.readyBuffer = -1
    · have h2 : mainLoopBody h miso s = some (s, []) := by simp [mainLoopBody, hne]
      rw [h2] at h1
      simp only [Option.some.injEq, Prod.mk.injEq] at h1
      obtain ⟨rfl, _⟩ := h1
      exact hovf
    · rw [mainLoopBody_eq h miso s hne] at h1
      cases hsend : sendRow h miso s.buffer s.readyBuffer with
      | none => simp [hsend] at h1
      | some t =>
        simp only [hsend, Option.map_some', Option.some.injEq, Prod.mk.injEq] at h1
        obtain ⟨rfl, _⟩ := h1
        exact hovf

theorem run_ovf (h : NrfHeader) (d : Nat) (steps : List Step) :
    ∀ s, Inv s → s.ovfCounter ≤ d →
      ∃ s1 tr, run h d steps s = some (s1, tr) ∧ s1.ovfCounter ≤ d := by
  induction steps with
  | nil => intro s _ hovf; exact ⟨s, [], rfl, hovf⟩
  | cons x rest ih =>
    intro s hinv hovf
    obtain ⟨s1, t1, h1, hinv1, hovf1⟩ := step_ovf h d x s hinv hovf
    obtain ⟨s2, t2, h2, hovf2⟩ := ih s1 hinv1 hovf1
    exact ⟨s2, t1 ++ t2, by simp only [run, h1, h2], hovf2⟩

theorem Reachable_ovf (h : NrfHeader) (d : Nat) (s : State) (hreach : Reachable h d s) :
    s.ovfCounter ≤ d := by
  obtain ⟨steps, tr, hrun⟩ := hreach
  obtain ⟨s1, t1, h1, hovf⟩ := run_ovf h d steps init Inv_init (Nat.zero_le _)
  rw [h1] at hrun
  simp only [Option.some.injEq, Prod.mk.injEq] at hrun
  rw [← hrun.1]
  exact hovf

/-- C17 fails as stated. Ten ticks from the initial state: the tenth tick
increments `ovfCounter` to `FREQ_DEVIDER`, yet no sample has been read and the
counter has not wrapped; so it is not true that a tick takes a sample if and
only if the incremented counter equals `FREQ_DEVIDER`. -/
theorem divider_equal_counterexample :
    (runTicks FREQ_DEVIDER (List.replicate 10 7) init).map
        (fun p => (adchReads p.2, p.1.ovfCounter)) = some ([], FREQ_DEVIDER) ∧
    ¬ (∀ (s s1 : State) (v : Nat) (t1 : List Event), ReachableByTicks FREQ_DEVIDER s →
        TIMER2_OVF_vect FREQ_DEVIDER v s = some (s1, t1) →
        (adchReads t1 = [v] ↔ (s.ovfCounter + 1) % 256 = FREQ_DEVIDER)) := by
  constructor
  · decide
  · intro hall
    obtain ⟨s, tr, hrun, hinv⟩ := runTicks_Inv FREQ_DEVIDER (List.replicate 9 7) init Inv_init
    obtain ⟨hlen, hle, _⟩ := divider_run 10 (by omega) init Inv_init rfl _ s tr hrun
    simp only [List.length_replicate] at hlen
    have hovf : s.ovfCounter = 9 := by omega
    rcases tick_cases FREQ_DEVIDER 7 s hinv.1 hinv.2.1 with
      ⟨_, ht⟩ | ⟨hgt, _⟩
    · have hiff := hall s _ 7 _ ⟨_, _, hrun⟩ ht
      rw [(tick_trace_skip _).1, hovf] at hiff
      have := hiff.mpr rfl
      simp at this
    · rw [hovf] at hgt
      exact absurd hgt (by decide)

/-- C17, amended. In every reachable state a timer tick returns and first
writes the incremented value `ovfCounter + 1` to `ovfCounter`; it reads a
sample if and only if the incremented counter exceeds `FREQ_DEVIDER`, which
is if and only if it equals `FREQ_DEVIDER + 1`; then the counter is 0 after
the tick; otherwise no sample is read and the counter keeps the incremented
value. -/
theorem divider_acceptance (h : NrfHeader) (s : State) (v : Nat)
    (hreach : Reachable h FREQ_DEVIDER s) :
    ∃ s1 t1, TIMER2_OVF_vect FREQ_DEVIDER v s = some (s1, t1) ∧
      t1.head? = some (Event.wOvfCounter (s.ovfCounter + 1)) ∧
      (adchReads t1 = [v] ↔ s.ovfCounter + 1 > FREQ_DEVIDER) ∧
      (s.ovfCounter + 1 > FREQ_DEVIDER ↔ s.ovfCounter + 1 = FREQ_DEVIDER + 1) ∧
      (s.ovfCounter + 1 > FREQ_DEVIDER → s1.ovfCounter = 0) ∧
      (¬ s.ovfCounter + 1 > FREQ_DEVIDER →
        adchReads t1 = [] ∧ s1.ovfCounter = s.ovfCounter + 1) := by
  have hinv := Reachable_Inv _ _ _ hreach
  have hovf : s.ovfCounter ≤ 10 := Reachable_ovf _ _ _ hreach
  have hmod : (s.ovfCounter + 1) % 256 = s.ovfCounter + 1 := Nat.mod_eq_of_lt (by omega)
  have e3 : FREQ_DEVIDER = 10 := rfl
  rcases tick_cases FREQ_DEVIDER v s hinv.1 hinv.2.1 with
    ⟨hskip, ht⟩ | ⟨hgt, buf, hbuf, ⟨hlt, ht⟩ | ⟨hlast, ht⟩⟩
  · rw [hmod] at hskip ht
    refine ⟨_, _, ht, rfl, ?_, by omega, fun hgt => absurd hgt hskip,
      fun _ => ⟨(tick_trace_skip _).1, rfl⟩⟩
    rw [(tick_trace_skip _).1]
    constructor
    · intro hnil
      simp at hnil
    · intro hgt
      exact absurd hgt hskip
  · rw [hmod] at hgt ht
    refine ⟨_, _, ht, rfl, ?_, by omega, fun _ => rfl, fun hn => absurd hgt hn⟩
    rw [(tick_trace_mid _ _ _ _ _).1]
    exact ⟨fun _ => hgt, fun _ => rfl⟩
  · rw [hmod] at hgt ht
    refine ⟨_, _, ht, rfl, ?_, by omega, fun _ => rfl, fun hn => absurd hgt hn⟩
    rw [(tick_trace_last _ _ _ _ _ _).1]
    exact ⟨fun _ => hgt, fun _ => rfl⟩

/-- C17, amended, at the initial state and at the state after ten ticks,
where the next tick reads a sample. -/
theorem divider_acceptance_witness :
    Reachable dataSheet FREQ_DEVIDER init ∧
    (run dataSheet FREQ_DEVIDER ((List.replicate 11 7).map Step.tick) init).map
        (fun p => (adchReads p.2, p.1.ovfCounter)) = some ([7], 0) ∧
    ∃ s1 t1, TIMER2_OVF_vect FREQ_DEVIDER 7 init = some (s1, t1) ∧
      t1.head? = some (Event.wOvfCounter (init.ovfCounter + 1)) ∧
      (adchReads t1 = [7] ↔ init.ovfCounter + 1 > FREQ_DEVIDER) ∧
      (init.ovfCounter + 1 > FREQ_DEVIDER ↔ init.ovfCounter + 1 = FREQ_DEVIDER + 1) ∧
      (init.ovfCounter + 1 > FREQ_DEVIDER → s1.ovfCounter = 0) ∧
      (¬ init.ovfCounter + 1 > FREQ_DEVIDER →
        adchReads t1 = [] ∧ s1.ovfCounter = init.ovfCounter + 1) :=
  ⟨⟨[], [], rfl⟩, by decide, divider_acceptance dataSheet init 7 ⟨[], [], rfl⟩⟩

/-! ## Frame condition of one tick, marker range -/

/-- C19. Frame condition of one tick. For every state with
`currentBuffer < 2` and `bufferCounter < NRF_DATA_LENGTH` and every sample
value, the interrupt handler returns; every cell of the non-active buffer
`buffer[1 - currentBuffer]` is unchanged, and so is every cell other than
`buffer[currentBuffer][bufferCounter]` (indices before the tick); a skipping
tick changes no buffer cell and leaves `bufferCounter`, `currentBuffer` and
`readyBuffer` as they are; an accepting tick that does not complete the buffer
leaves `currentBuffer` and `readyBuffer` as they are. -/
theorem tick_frame (s : State) (v : Nat) (hcur : s.currentBuffer < 2)
    (hcnt : s.bufferCounter < NRF_DATA_LENGTH) :
    ∃ s1 t1, TIMER2_OVF_vect FREQ_DEVIDER v s = some (s1, t1) ∧
      (∀ i, loadBuffer s1.buffer (1 - s.currentBuffer) i
        = loadBuffer s.buffer (1 - s.currentBuffer) i) ∧
      (∀ k i, k ≠ s.currentBuffer ∨ i ≠ s.bufferCounter →
        loadBuffer s1.buffer k i = loadBuffer s.buffer k i) ∧
      (adchReads t1 = [] →
        s1.buffer = s.buffer ∧ s1.bufferCounter = s.bufferCounter ∧
        s1.currentBuffer = s.currentBuffer ∧ s1.readyBuffer = s.readyBuffer) ∧
      (adchReads t1 = [v] → s.bufferCounter + 1 < NRF_DATA_LENGTH →
        s1.currentBuffer = s.currentBuffer ∧ s1.readyBuffer = s.readyBuffer) := by
  have hother : 1 - s.currentBuffer ≠ s.currentBuffer := by omega
  rcases tick_cases FREQ_DEVIDER v s hcur hcnt with
    ⟨_, ht⟩ | ⟨_, buf, hbuf, ⟨hlt, ht⟩ | ⟨hlast, ht⟩⟩
  · exact ⟨_, _, ht, fun _ => rfl, fun _ _ _ => rfl, fun _ => ⟨rfl, rfl, rfl, rfl⟩,
      fun _ _ => ⟨rfl, rfl⟩⟩
  · refine ⟨_, _, ht, ?_, ?_, ?_, fun _ _ => ⟨rfl, rfl⟩⟩
    · intro i
      exact loadBuffer_storeBuffer_other _ _ _ _ _ _ _ hbuf (Or.inl hother)
    · intro k i hne
      exact loadBuffer_storeBuffer_other _ _ _ _ _ _ _ hbuf hne
    · intro hreads
      rw [(tick_trace_mid _ _ _ _ _).1] at hreads
      simp at hreads
  · refine ⟨_, _, ht, ?_, ?_, ?_, ?_⟩
    · intro i
      exact loadBuffer_storeBuffer_other _ _ _ _ _ _ _ hbuf (Or.inl hother)
    · intro k i hne
      exact loadBuffer_storeBuffer_other _ _ _ _ _ _ _ hbuf hne
    · intro hreads
      rw [(tick_trace_last _ _ _ _ _ _).1] at hreads
      simp at hreads
    · intro _ hlt
      have hlast1 : s.bufferCounter + 1 = 32 := hlast
      have hlt1 : s.bufferCounter + 1 < 32 := hlt
      omega

/-- C19 on a concrete state: an accepting tick in the middle of buffer 1. -/
theorem tick_frame_witness :
    (1 : Nat) < 2 ∧ (3 : Nat) < NRF_DATA_LENGTH ∧
    (TIMER2_OVF_vect FREQ_DEVIDER 7
        { init with ovfCounter := 10, currentBuffer := 1, bufferCounter := 3 }).map
        (fun p => (adchReads p.2, p.1.currentBuffer, p.1.readyBuffer,
          loadBuffer p.1.buffer 1 3, loadBuffer p.1.buffer 0 3))
      = some ([7], 1, -1, some 7, some 0) ∧
    ∃ s1 t1, TIMER2_OVF_vect FREQ_DEVIDER 7
        { init with ovfCounter := 10, currentBuffer := 1, bufferCounter := 3 }
        = some (s1, t1) ∧
      (∀ i, loadBuffer s1.buffer (1 - 1) i = loadBuffer init.buffer (1 - 1) i) ∧
      (∀ k i, k ≠ 1 ∨ i ≠ 3 → loadBuffer s1.buffer k i = loadBuffer init.buffer k i) ∧
      (adchReads t1 = [] →
        s1.buffer = init.buffer ∧ s1.bufferCounter = 3 ∧
        s1.currentBuffer = 1 ∧ s1.readyBuffer = init.readyBuffer) ∧
      (adchReads t1 = [7] → 3 + 1 < NRF_DATA_LENGTH →
        s1.currentBuffer = 1 ∧ s1.readyBuffer = init.readyBuffer) :=
  ⟨by decide, by decide, by decide,
    tick_frame { init with ovfCounter := 10, currentBuffer := 1, bufferCounter := 3 } 7
      (by decide) (by decide)⟩

/-- C20. Marker range. In every state reachable from the initial state by an
interleaving of timer ticks and main-loop iterations, `readyBuffer` is `-1`,
`0` or `1`. When it is not `-1`, the index `b` the main loop captures
satisfies `0 ≤ b < 2`, `buffer[b]` is a row of `NRF_DATA_LENGTH` bytes, every
index `i < NRF_DATA_LENGTH` read by `setNrfTransmitData(buffer[b],
NRF_DATA_LENGTH)` is inside that row, the call returns, and so does the
iteration of the main loop. -/
theorem marker_range (h : NrfHeader) (miso : Nat → Nat) (s : State)
    (hreach : Reachable h FREQ_DEVIDER s) :
    (s.readyBuffer = -1 ∨ s.readyBuffer = 0 ∨ s.readyBuffer = 1) ∧
    (s.readyBuffer ≠ -1 →
      0 ≤ s.readyBuffer ∧ s.readyBuffer < 2 ∧
      ∃ data tr, bufferRow s.buffer s.readyBuffer = some data ∧
        data.length = NRF_DATA_LENGTH ∧
        (∀ i, i < NRF_DATA_LENGTH → ∃ b, data[i]? = some b) ∧
        setNrfTransmitData h miso data NRF_DATA_LENGTH = some tr ∧
        mainLoopBody h miso s
          = some ({ s with readyBuffer := -1 }, Event.wReadyBuffer (-1) :: tr)) := by
  have hinv := Reachable_Inv _ _ _ hreach
  refine ⟨hinv.2.2, ?_⟩
  intro hne
  have hK : s.readyBuffer = 0 ∨ s.readyBuffer = 1 := by
    have := hinv.2.2
    omega
  have hrow : ∃ data, bufferRow s.buffer s.readyBuffer = some data := by
    rcases hK with h0 | h0 <;> simp [bufferRow, h0]
  obtain ⟨data, hrow⟩ := hrow
  have hlen := bufferRow_length _ _ _ hrow
  have hsend := setNrfTransmitData_eq h miso data NRF_DATA_LENGTH (le_of_eq hlen.symm)
  refine ⟨by omega, by omega, data, _, hrow, hlen, ?_, hsend, ?_⟩
  · intro i hi
    exact ⟨data[i], List.getElem?_eq_getElem (by omega)⟩
  · rw [mainLoopBody_eq h miso s hne]
    simp only [sendRow, hrow, hsend, Option.map_some']

/-- C20 on the state reached after 352 ticks, where buffer 0 is pending. -/
theorem marker_range_witness :
    ∃ s tr, run dataSheet FREQ_DEVIDER ((List.replicate 352 7).map Step.tick) init
        = some (s, tr) ∧
      s.readyBuffer = 0 ∧ Reachable dataSheet FREQ_DEVIDER s ∧
      (s.readyBuffer = -1 ∨ s.readyBuffer = 0 ∨ s.readyBuffer = 1) ∧
      (s.readyBuffer ≠ -1 →
        0 ≤ s.readyBuffer ∧ s.readyBuffer < 2 ∧
        ∃ data tr, bufferRow s.buffer s.readyBuffer = some data ∧
          data.length = NRF_DATA_LENGTH ∧
          (∀ i, i < NRF_DATA_LENGTH → ∃ b, data[i]? = some b) ∧
          setNrfTransmitData dataSheet (fun _ => 0) data NRF_DATA_LENGTH = some tr ∧
          mainLoopBody dataSheet (fun _ => 0) s
            = some ({ s with readyBuffer := -1 }, Event.wReadyBuffer (-1) :: tr)) := by
  obtain ⟨s, tr, hrun, _⟩ :=
    run_Inv dataSheet FREQ_DEVIDER ((List.replicate 352 7).map Step.tick) init Inv_init
  have hready : (run dataSheet FREQ_DEVIDER ((List.replicate 352 7).map Step.tick) init).map
      (fun p => p.1.readyBuffer) = some 0 := by decide
  rw [hrun] at hready
  simp only [Option.map_some', Option.some.injEq] at hready
  exact ⟨s, tr, hrun, hready, ⟨_, _, hrun⟩,
    marker_range dataSheet (fun _ => 0) s ⟨_, _, hrun⟩⟩

/-! ## The operations of the command protocol -/

theorem exchanges_dataBytes (bytes : List Nat) (rest : List Event) :
    exchanges (dataBytes bytes ++ rest) = bytes ++ exchanges rest := by
  induction bytes with
  | nil => simp [dataBytes]
  | cons b bs ih =>
    simp only [exchanges, dataBytes] at ih ⊢
    simp [ih]

theorem exchanges_frame (c : Nat) (bytes : List Nat) :
    exchanges ([Event.csnLow, Event.delayUs SET_REGISTER_DELAY, Event.exchange c,
      Event.delayUs SET_REGISTER_DELAY] ++ dataBytes bytes ++ [Event.csnHigh]) = c :: bytes := by
  have hshape : [Event.csnLow, Event.delayUs SET_REGISTER_DELAY, Event.exchange c,
        Event.delayUs SET_REGISTER_DELAY] ++ dataBytes bytes ++ [Event.csnHigh]
      = [Event.csnLow, Event.delayUs SET_REGISTER_DELAY, Event.exchange c,
          Event.delayUs SET_REGISTER_DELAY] ++ (dataBytes bytes ++ [Event.csnHigh]) := by
    simp
  have hbody := exchanges_dataBytes bytes [Event.csnHigh]
  rw [hshape]
  simp only [exchanges] at hbody ⊢
  simp [hbody]

theorem setNrfTransmitData_loop_miso (miso miso1 : Nat → Nat) (data : List Nat) :
    ∀ n i, setNrfTransmitData_loop miso1 data n i = setNrfTransmitData_loop miso data n i := by
  intro n
  induction n with
  | zero => intro i; rfl
  | succ n ih =>
    intro i
    simp only [setNrfTransmitData_loop, writeMSPI, ih (i + 1)]

theorem getNrfReceivedData_loop_miso (h : NrfHeader) (miso miso1 : Nat → Nat)
    (hagree : ∀ k, 0 < k → miso1 k = miso k) :
    ∀ n i data, getNrfReceivedData_loop h miso1 n i data
      = getNrfReceivedData_loop h miso n i data := by
  intro n
  induction n with
  | zero => intro i data; rfl
  | succ n ih =>
    intro i data
    simp only [getNrfReceivedData_loop, writeMSPI, hagree (i + 1) (by omega), ih (i + 1)]

/-- The result of every function of the command protocol is independent of
the byte received while the command byte is sent. -/
theorem execOperation_miso (h : NrfHeader) (miso miso1 : Nat → Nat)
    (hagree : ∀ k, 0 < k → miso1 k = miso k) (op : Operation) :
    execOperation h miso1 op = execOperation h miso op := by
  cases op with
  | callInitNrfRegister reg => rfl
  | callGetNrfReceivedData data =>
    simp only [execOperation, getNrfReceivedData, initNrfRegister, writeMSPI,
      getNrfReceivedData_loop_miso h miso miso1 hagree]
  | callSetNrfTransmitData data L =>
    simp only [execOperation, setNrfTransmitData, initNrfRegister, writeMSPI,
      setNrfTransmitData_loop_miso miso miso1]
  | callSetNrfRegister reg val count =>
    simp only [execOperation, setNrfRegister_eq]
  | callGetNfrRegister reg =>
    simp only [execOperation, getNfrRegister_eq, hagree 1 (by omega)]

/-- C16 fails as stated. With the opcodes of the data sheet, none of the five
functions of the command protocol, for any arguments, is a no-operation /
status probe: none sends `NOP` alone and returns the byte received while it
was sent. -/
theorem no_status_probe_counterexample : ¬ ∃ op : Operation, IsStatusProbe dataSheet op := by
  rintro ⟨op, hprobe⟩
  obtain ⟨tr, hexec, hex⟩ := hprobe (fun _ => 0)
  cases op with
  | callInitNrfRegister reg => simp [execOperation] at hexec
  | callGetNrfReceivedData data =>
    simp only [execOperation] at hexec
    cases hget : getNrfReceivedData dataSheet (fun _ => 0) data with
    | none => simp [hget] at hexec
    | some p => simp [hget] at hexec
  | callSetNrfTransmitData data L =>
    simp only [execOperation] at hexec
    cases hset : setNrfTransmitData dataSheet (fun _ => 0) data L with
    | none => simp [hset] at hexec
    | some p => simp [hset] at hexec
  | callSetNrfRegister reg val count => simp [execOperation] at hexec
  | callGetNfrRegister reg =>
    simp only [execOperation, getNfrRegister_eq, Option.some.injEq, Prod.mk.injEq] at hexec
    obtain ⟨_, rfl⟩ := hexec
    rw [exchanges_frame] at hex
    simp [dataSheet] at hex

/-- C16, amended. The command protocol has four framed operations and no
no-operation / status probe. `getNfrRegister` sends the command byte
`(R_REGISTER + reg) mod 256` and then `NOP`, and returns the byte received
while `NOP` is sent; `setNrfRegister` sends `(W_REGISTER + reg) mod 256` and
then `count` times `val`; `setNrfTransmitData` sends `W_TX_PAYLOAD` and then
the bytes of the payload; `getNrfReceivedData` sends `R_RX_PAYLOAD` and then
`NRF_DATA_LENGTH` times `NOP`. The opcode `NOP` is thus only sent as the
filler byte of the two reads, and the result of every function, the frame
opening `initNrfRegister` included, is independent of the byte received while
the command byte is sent. -/
theorem protocol_operations (h : NrfHeader) (miso : Nat → Nat) :
    (∀ reg, (getNfrRegister h miso reg).1 = miso 1 ∧
      exchanges (getNfrRegister h miso reg).2 = [(h.R_REGISTER + reg) % 256, h.NOP]) ∧
    (∀ reg val count,
      exchanges (setNrfRegister h miso reg val count)
        = (h.W_REGISTER + reg) % 256 :: List.replicate count val) ∧
    (∀ data L, L ≤ data.length →
      ∃ tr, setNrfTransmitData h miso data L = some tr ∧
        exchanges tr = h.W_TX_PAYLOAD :: data.take L) ∧
    (∀ data, NRF_DATA_LENGTH ≤ data.length →
      ∃ data1 tr, getNrfReceivedData h miso data = some (data1, tr) ∧
        exchanges tr = h.R_RX_PAYLOAD :: List.replicate NRF_DATA_LENGTH h.NOP) ∧
    (∀ op miso1, (∀ k, 0 < k → miso1 k = miso k) →
      execOperation h miso1 op = execOperation h miso op) := by
  refine ⟨?_, ?_, ?_, ?_, ?_⟩
  · intro reg
    rw [getNfrRegister_eq]
    exact ⟨rfl, exchanges_frame _ _⟩
  · intro reg val count
    rw [setNrfRegister_eq]
    exact exchanges_frame _ _
  · intro data L hL
    exact ⟨_, setNrfTransmitData_eq h miso data L hL, exchanges_frame _ _⟩
  · intro data hlen
    obtain ⟨data1, hrun, _⟩ := getNrfReceivedData_eq h miso data hlen
    exact ⟨data1, _, hrun, exchanges_frame _ _⟩
  · intro op miso1 hagree
    exact execOperation_miso h miso miso1 hagree op

end AudioTx
